import Mathlib

/-!
Verification development for the RustRT renderer core.

Shallow embedding conventions:
* `f32` scalars are modelled by `ℚ`.  Decimal literals of the source are read
  at face value (`0.0001` becomes `1/10000`); named float constants
  (`f32::MAX`, `f32::consts::PI`) are modelled by the exact rational value of
  the corresponding IEEE-754 single-precision bit pattern.
* The slab test in `AABB::hit` deliberately divides by zero direction
  components, so its arithmetic is carried out in `EF`, rationals extended
  with `+inf`, `-inf` and `nan`, with IEEE-754 comparison/multiplication/
  division semantics (`nan` compares false; `0 * inf = nan`; `q / 0` is a
  signed infinity).  `ℚ` has no negative zero, matching rays whose direction
  components are written as ordinary literals.
* Machine float functions with no rational counterpart (`sqrt`, `acos`,
  `atan2`) are threaded through the definitions as an explicit oracle record
  `FOracles`, mirroring how the Rust code calls into the intrinsic; concrete
  evaluations instantiate it with `ratOracles`, which is exact on the perfect
  squares used by the witnesses.
* `u32` arithmetic of the renderer is modelled on `ℕ` with explicit
  reduction `% 2^32` after every operation.
* Trait objects `Box<dyn Hittable>` are modelled by the structure `Hittable`
  bundling the `hit` method and the cached AABB, exactly the capabilities the
  scene-graph and BVH code uses.  `Arc<dyn Material>` handles are modelled as
  `ℕ` identifiers (the record only stores and compares the reference).
-/

namespace RT

/-- Exact value of `f32::MAX` = (2 - 2^-23) * 2^127. -/
def f32Max : ℚ := 340282346638528859811704183484516925440

/-- Exact value of `f32::MIN` = -`f32::MAX`. -/
def f32Min : ℚ := -340282346638528859811704183484516925440

/-- Exact rational value of the IEEE-754 single-precision constant
`std::f32::consts::PI` (bit pattern 0x40490FDB). -/
def f32Pi : ℚ := 13176795 / 4194304

/-- Modelled from the spec: `math::vec2` is referenced by the hit-record
plumbing (`use crate::math::vec2::*`) but its file is not part of the given
sources; the spec describes it as the "2D surface coordinate".  We model the
evident two-component value type with constructor and zero. -/
structure Vec2 where
  x : ℚ
  y : ℚ
deriving DecidableEq, Repr

def Vec2.new (x y : ℚ) : Vec2 := ⟨x, y⟩

def Vec2.zero : Vec2 := ⟨0, 0⟩

/-- `math::vec3::Vec3`. -/
structure Vec3 where
  x : ℚ
  y : ℚ
  z : ℚ
deriving DecidableEq, Repr

def Vec3.new (x y z : ℚ) : Vec3 := ⟨x, y, z⟩

def vec3 (x y z : ℚ) : Vec3 := Vec3.new x y z

def Vec3.zero : Vec3 := ⟨0, 0, 0⟩

def Vec3.origin : Vec3 := vec3 0 0 0

def Vec3.one : Vec3 := ⟨1, 1, 1⟩

def Vec3.add (a b : Vec3) : Vec3 := ⟨a.x + b.x, a.y + b.y, a.z + b.z⟩

def Vec3.sub (a b : Vec3) : Vec3 := ⟨a.x - b.x, a.y - b.y, a.z - b.z⟩

def Vec3.neg (a : Vec3) : Vec3 := ⟨-a.x, -a.y, -a.z⟩

def Vec3.smul (s : ℚ) (a : Vec3) : Vec3 := ⟨s * a.x, s * a.y, s * a.z⟩

def Vec3.divs (a : Vec3) (s : ℚ) : Vec3 := ⟨a.x / s, a.y / s, a.z / s⟩

/-- `vec3::dot`. -/
def dot (a b : Vec3) : ℚ := a.x * b.x + a.y * b.y + a.z * b.z

/-- `vec3::cross`. -/
def cross (a b : Vec3) : Vec3 :=
  ⟨a.y * b.z - a.z * b.y, a.z * b.x - a.x * b.z, a.x * b.y - a.y * b.x⟩

def Vec3.lengthSquared (a : Vec3) : ℚ := dot a a

/-- Component access mirroring the `Deref` into `[f32;3]` (index 0,1,2). -/
def Vec3.comp (a : Vec3) : ℕ → ℚ
  | 0 => a.x
  | 1 => a.y
  | _ => a.z

/-- Oracle record for the machine float functions with no exact rational
counterpart.  Each field models the corresponding `f32` intrinsic. -/
structure FOracles where
  sqrt : ℚ → ℚ
  acos : ℚ → ℚ
  atan2 : ℚ → ℚ → ℚ
  ln : ℚ → ℚ

/-- A computable stand-in square root, exact on rationals whose numerator and
denominator are perfect squares (all concrete witness computations below only
take square roots of such numbers). -/
def ratSqrt (q : ℚ) : ℚ := (Nat.sqrt q.num.toNat : ℚ) / (Nat.sqrt q.den : ℚ)

/-- Oracle instantiation used by concrete witness computations. -/
def ratOracles : FOracles :=
  { sqrt := ratSqrt, acos := fun _ => 0, atan2 := fun _ _ => 0, ln := fun _ => 0 }

/-- `Vec3::normalize` (returns zero for a zero-length input). -/
def Vec3.normalize (F : FOracles) (v : Vec3) : Vec3 :=
  let lengthSquared := v.x * v.x + v.y * v.y + v.z * v.z
  if 0 < lengthSquared then
    let length := F.sqrt lengthSquared
    ⟨v.x / length, v.y / length, v.z / length⟩
  else
    ⟨0, 0, 0⟩

def Vec3.length (F : FOracles) (a : Vec3) : ℚ := F.sqrt (dot a a)

/-- `interval::Interval` with `f32` bounds modelled on `ℚ`. -/
structure Interval where
  min : ℚ
  max : ℚ
deriving DecidableEq, Repr

def Interval.new (min max : ℚ) : Interval := ⟨min, max⟩

def Interval.combine (a b : Interval) : Interval :=
  ⟨Min.min a.min b.min, Max.max a.max b.max⟩

def Interval.empty : Interval := ⟨f32Max, f32Min⟩

def Interval.universe : Interval := ⟨f32Min, f32Max⟩

def Interval.size (i : Interval) : ℚ := i.max - i.min

def Interval.contains (i : Interval) (value : ℚ) : Bool :=
  decide (i.min ≤ value) && decide (value ≤ i.max)

def Interval.expand (i : Interval) (delta : ℚ) : Interval :=
  let padding := delta / 2
  ⟨i.min - padding, i.max + padding⟩

def Interval.surrounds (i : Interval) (value : ℚ) : Bool :=
  decide (i.min < value) && decide (value < i.max)

def Interval.clamp (i : Interval) (value : ℚ) : ℚ :=
  if value < i.min then i.min else if value > i.max then i.max else value

/-- Rust `Interval::default()` (`f32` defaults to `0.0`). -/
def Interval.default : Interval := ⟨0, 0⟩

/-- Extended `f32` value: finite rational, signed infinity or `nan`.  Finite
values never carry a negative zero (ℚ has none), matching direction
components written as ordinary literals. -/
inductive EF where
  | fin (q : ℚ)
  | pinf
  | ninf
  | nan
deriving DecidableEq, Repr

/-- IEEE-754 `<` (any comparison with `nan` is false). -/
def EF.lt : EF → EF → Bool
  | .fin a, .fin b => decide (a < b)
  | .fin _, .pinf => true
  | .ninf, .fin _ => true
  | .ninf, .pinf => true
  | _, _ => false

/-- IEEE-754 `<=` (any comparison with `nan` is false). -/
def EF.le : EF → EF → Bool
  | .fin a, .fin b => decide (a ≤ b)
  | .fin _, .pinf => true
  | .ninf, .fin _ => true
  | .ninf, .pinf => true
  | .pinf, .pinf => true
  | .ninf, .ninf => true
  | _, _ => false

/-- IEEE-754 multiplication on extended values (`0 * inf = nan`). -/
def EF.mul : EF → EF → EF
  | .nan, _ => .nan
  | _, .nan => .nan
  | .fin a, .fin b => .fin (a * b)
  | .fin a, .pinf => if 0 < a then .pinf else if a < 0 then .ninf else .nan
  | .fin a, .ninf => if 0 < a then .ninf else if a < 0 then .pinf else .nan
  | .pinf, .fin b => if 0 < b then .pinf else if b < 0 then .ninf else .nan
  | .ninf, .fin b => if 0 < b then .ninf else if b < 0 then .pinf else .nan
  | .pinf, .pinf => .pinf
  | .pinf, .ninf => .ninf
  | .ninf, .pinf => .ninf
  | .ninf, .ninf => .pinf

/-- IEEE-754 division on extended values (`q / 0` is a signed infinity,
`0 / 0 = nan`; ℚ has no negative zero so the divisor zero counts positive). -/
def EF.div : EF → EF → EF
  | .nan, _ => .nan
  | _, .nan => .nan
  | .fin a, .fin b =>
      if b = 0 then (if 0 < a then .pinf else if a < 0 then .ninf else .nan)
      else .fin (a / b)
  | .fin _, .pinf => .fin 0
  | .fin _, .ninf => .fin 0
  | .pinf, .fin b => if b < 0 then .ninf else .pinf
  | .ninf, .fin b => if b < 0 then .pinf else .ninf
  | _, _ => .nan

def EF.toRat : EF → ℚ
  | .fin q => q
  | _ => 0

/-- The query interval of the slab test, with extended bounds (the Rust code
reuses `Interval`, whose `f32` fields admit infinities). -/
structure EInterval where
  min : EF
  max : EF
deriving DecidableEq, Repr

def Interval.toE (i : Interval) : EInterval := ⟨.fin i.min, .fin i.max⟩

/-- `interval.surrounds(value)` applied to an extended value (the sphere code
feeds quotient results, which can be infinite or `nan`, to `surrounds`). -/
def Interval.surroundsE (i : Interval) (value : EF) : Bool :=
  EF.lt (.fin i.min) value && EF.lt value (.fin i.max)

/-- `aabb::Axis`. -/
inductive Axis where
  | X
  | Y
  | Z
deriving DecidableEq, Repr

/-- `aabb::AABB`. -/
structure AABB where
  x : Interval
  y : Interval
  z : Interval
deriving DecidableEq, Repr

/-- Rust `AABB::default()` (all axis intervals `[0,0]`). -/
def AABB.default : AABB := ⟨Interval.default, Interval.default, Interval.default⟩

/-- `AABB::pad_to_minimum_size` (private helper applied by the constructors). -/
def AABB.padToMinimumSize (bb : AABB) : AABB :=
  let minDelta : ℚ := 1 / 10000
  let x := if bb.x.size < minDelta then bb.x.expand minDelta else bb.x
  let y := if bb.y.size < minDelta then bb.y.expand minDelta else bb.y
  let z := if bb.z.size < minDelta then bb.z.expand minDelta else bb.z
  ⟨x, y, z⟩

def AABB.new (x y z : Interval) : AABB := AABB.padToMinimumSize ⟨x, y, z⟩

/-- `AABB::construct` from two corner points. -/
def AABB.construct (a b : Vec3) : AABB :=
  AABB.padToMinimumSize
    ⟨if a.x ≤ b.x then ⟨a.x, b.x⟩ else ⟨b.x, a.x⟩,
     if a.y ≤ b.y then ⟨a.y, b.y⟩ else ⟨b.y, a.y⟩,
     if a.z ≤ b.z then ⟨a.z, b.z⟩ else ⟨b.z, a.z⟩⟩

def AABB.combine (a b : AABB) : AABB :=
  ⟨Interval.combine a.x b.x, Interval.combine a.y b.y, Interval.combine a.z b.z⟩

def AABB.getAxis (bb : AABB) : Axis → Interval
  | .X => bb.x
  | .Y => bb.y
  | .Z => bb.z

/-- `AABB::get_longest_axis` (ties resolve toward Z). -/
def AABB.getLongestAxis (bb : AABB) : Axis :=
  let xSize := bb.x.size
  let ySize := bb.y.size
  let zSize := bb.z.size
  if xSize > ySize ∧ xSize > zSize then .X
  else if ySize > xSize ∧ ySize > zSize then .Y
  else .Z

/-- `ray::Ray` (plain fields; `Ray::new` normalizes, see `Ray.new`). -/
structure Ray where
  origin : Vec3
  direction : Vec3
deriving DecidableEq, Repr

def Ray.new (F : FOracles) (origin direction : Vec3) : Ray :=
  ⟨origin, direction.normalize F⟩

def Ray.at (r : Ray) (t : ℚ) : Vec3 := Vec3.add r.origin (Vec3.smul t r.direction)

/-- One slab-entry/exit parameter `(bound - origin) * (1/direction)` computed
with IEEE-754 extended arithmetic, as in the body of `AABB::hit`. -/
def slabT (bound o d : ℚ) : EF :=
  EF.mul (.fin (bound - o)) (EF.div (.fin 1) (.fin d))

/-- One axis of the slab loop of `AABB::hit`: update the running interval by
the entry/exit parameters of this axis. -/
def slabAxis (axMin axMax o d : ℚ) (s : EInterval) : EInterval :=
  let t0 := slabT axMin o d
  let t1 := slabT axMax o d
  if EF.lt t0 t1 then
    ⟨if EF.lt s.min t0 then t0 else s.min, if EF.lt t1 s.max then t1 else s.max⟩
  else
    ⟨if EF.lt s.min t1 then t1 else s.min, if EF.lt t0 s.max then t0 else s.max⟩

/-- `AABB::hit`: the three-axis slab test, rejecting as soon as
`ray_t.max <= ray_t.min`. -/
def AABB.hit (bb : AABB) (ray : Ray) (rayT : EInterval) : Bool :=
  let s1 := slabAxis bb.x.min bb.x.max ray.origin.x ray.direction.x rayT
  if EF.le s1.max s1.min then false else
  let s2 := slabAxis bb.y.min bb.y.max ray.origin.y ray.direction.y s1
  if EF.le s2.max s2.min then false else
  let s3 := slabAxis bb.z.min bb.z.max ray.origin.z ray.direction.z s2
  if EF.le s3.max s3.min then false else true

/-- Axis-wise interval containment `a ⊆ b` (used to state box monotonicity). -/
def Interval.sub (a b : Interval) : Prop := b.min ≤ a.min ∧ a.max ≤ b.max

/-- Axis-wise box containment. -/
def AABB.sub (a b : AABB) : Prop :=
  Interval.sub a.x b.x ∧ Interval.sub a.y b.y ∧ Interval.sub a.z b.z

/-- Per-axis strict validity (every constructed box is padded to positive
size, so this holds for all primitive boxes). -/
def AABB.strictValid (bb : AABB) : Prop :=
  bb.x.min < bb.x.max ∧ bb.y.min < bb.y.max ∧ bb.z.min < bb.z.max

/-- `entities::entity::HitRecord`.  The borrowed material reference
`Option<&Arc<dyn Material>>` is modelled as an optional material
identifier. -/
structure HitRecord where
  t : ℚ
  position : Vec3
  normal : Vec3
  uv : Vec2
  material : Option ℕ
  front_face : Bool
deriving DecidableEq, Repr

/-- `HitRecord::new`. -/
def HitRecord.new : HitRecord :=
  { t := 0, position := Vec3.zero, material := none, normal := Vec3.zero,
    uv := Vec2.zero, front_face := false }

/-- `HitRecord::set_face_normal` (returns the updated record). -/
def HitRecord.setFaceNormal (record : HitRecord) (ray : Ray) (outNormal : Vec3) :
    HitRecord :=
  let ff := decide (dot ray.direction outNormal < 0)
  { record with front_face := ff, normal := if ff then outNormal else outNormal.neg }

/-- A `Box<dyn Hittable>` as used by `EntityList` and the BVH: the `hit`
method (mutating a `&mut HitRecord` becomes record-in/record-out) and the
cached AABB (`get_aabb`). -/
structure Hittable where
  hit : Ray → Interval → HitRecord → Bool × HitRecord
  aabb : AABB

/-- `entities::sphere::Sphere`. -/
structure Sphere where
  center : Vec3
  radius : ℚ
  material : ℕ
  aabb : AABB
deriving DecidableEq, Repr

def Sphere.computeAabb (s : Sphere) : AABB :=
  let rvec := vec3 s.radius s.radius s.radius
  AABB.construct (Vec3.sub s.center rvec) (Vec3.add s.center rvec)

def Sphere.new (center : Vec3) (radius : ℚ) (material : ℕ) : Sphere :=
  let s : Sphere :=
    { center := center, radius := radius, material := material,
      aabb := AABB.default }
  { s with aabb := s.computeAabb }

/-- `Sphere::get_uv` (spherical coordinates through the trig oracles). -/
def Sphere.getUv (F : FOracles) (p : Vec3) : Vec2 :=
  let theta := F.acos (-p.y)
  let phi := F.atan2 (-p.z) p.x + f32Pi
  Vec2.new (phi / (2 * f32Pi)) (theta / f32Pi)

/-- `Sphere::hit`.  The two quadratic roots are divided by `a` in IEEE
arithmetic (`a = 0` for a zero direction yields infinities/`nan`, which the
`surrounds` tests then reject), hence the `EF` quotients. -/
def Sphere.hit (F : FOracles) (s : Sphere) (ray : Ray) (tInterval : Interval)
    (record : HitRecord) : Bool × HitRecord :=
  let raySphereVec := Vec3.sub s.center ray.origin
  let a := dot ray.direction ray.direction
  let h := dot ray.direction raySphereVec
  let c := dot raySphereVec raySphereVec - s.radius * s.radius
  let discriminant := h * h - a * c
  if discriminant < 0 then (false, record)
  else
    let dSqrt := F.sqrt discriminant
    let root1 := EF.div (.fin (h - dSqrt)) (.fin a)
    let root2 := EF.div (.fin (h + dSqrt)) (.fin a)
    let root? := if tInterval.surroundsE root1 then some root1
                 else if tInterval.surroundsE root2 then some root2 else none
    match root? with
    | none => (false, record)
    | some root =>
        let t := root.toRat
        let position := ray.at t
        let outwardNormal := (Vec3.sub position s.center).normalize F
        let record := { record with t := t, position := position }
        let record := record.setFaceNormal ray outwardNormal
        let record := { record with
                        material := some s.material,
                        uv := Sphere.getUv F outwardNormal }
        (true, record)

def Sphere.toHittable (F : FOracles) (s : Sphere) : Hittable :=
  ⟨Sphere.hit F s, s.aabb⟩

/-- `entities::quad::Quad`. -/
structure Quad where
  q : Vec3
  u : Vec3
  v : Vec3
  normal : Vec3
  d : ℚ
  w : Vec3
  material : ℕ
  aabb : AABB
  area : ℚ
deriving DecidableEq, Repr

/-- `Quad::compute_aabb`: fold min/max over the four corners, then
`AABB::construct` (which pads). -/
def Quad.computeAabb (qd : Quad) : AABB :=
  let p0 := qd.q
  let p1 := Vec3.add qd.q qd.u
  let p2 := Vec3.add qd.q qd.v
  let p3 := Vec3.add (Vec3.add qd.q qd.u) qd.v
  let pts := [p0, p1, p2, p3]
  let lo := pts.foldl
    (fun (m : Vec3) p => ⟨Min.min m.x p.x, Min.min m.y p.y, Min.min m.z p.z⟩) p0
  let hi := pts.foldl
    (fun (m : Vec3) p => ⟨Max.max m.x p.x, Max.max m.y p.y, Max.max m.z p.z⟩) p0
  AABB.construct lo hi

/-- `Quad::new`. -/
def Quad.new (F : FOracles) (q u v : Vec3) (material : ℕ) : Quad :=
  let n := cross u v
  let qd : Quad :=
    { q := q, u := u, v := v, normal := n.normalize F, d := 0, w := Vec3.zero,
      material := material, aabb := AABB.default, area := n.length F }
  let qd := { qd with aabb := qd.computeAabb }
  { qd with d := dot qd.normal qd.q, w := Vec3.divs n (dot n n) }

/-- `Quad::is_interior` (inclusive unit-square test; sets the record's UV on
success). -/
def Quad.isInterior (alpha beta : ℚ) (record : HitRecord) : Bool × HitRecord :=
  let interval := Interval.new 0 1
  if !(interval.contains alpha) || !(interval.contains beta) then (false, record)
  else (true, { record with uv := Vec2.new alpha beta })

/-- The plane-intersection parameter computed inside `Quad::hit`. -/
def Quad.hitT (qd : Quad) (ray : Ray) : ℚ :=
  (qd.d - dot qd.normal ray.origin) / dot qd.normal ray.direction

/-- The first planar coordinate computed inside `Quad::hit`. -/
def Quad.alphaOf (qd : Quad) (ray : Ray) (t : ℚ) : ℚ :=
  dot qd.w (cross (Vec3.sub (ray.at t) qd.q) qd.v)

/-- The second planar coordinate computed inside `Quad::hit`. -/
def Quad.betaOf (qd : Quad) (ray : Ray) (t : ℚ) : ℚ :=
  dot qd.w (cross qd.u (Vec3.sub (ray.at t) qd.q))

/-- `Quad::hit`. -/
def Quad.hit (qd : Quad) (ray : Ray) (tInterval : Interval) (record : HitRecord) :
    Bool × HitRecord :=
  let denom := dot qd.normal ray.direction
  if |denom| < 1 / 1000000 then (false, record)
  else
    let t := (qd.d - dot qd.normal ray.origin) / denom
    if !(tInterval.contains t) then (false, record)
    else
      let hitP := ray.at t
      let planarHitVector := Vec3.sub hitP qd.q
      let alpha := dot qd.w (cross planarHitVector qd.v)
      let beta := dot qd.w (cross qd.u planarHitVector)
      match Quad.isInterior alpha beta record with
      | (false, record) => (false, record)
      | (true, record) =>
          let record := { record with
                          t := t, position := hitP,
                          material := some qd.material }
          (true, record.setFaceNormal ray qd.normal)

def Quad.toHittable (qd : Quad) : Hittable :=
  ⟨Quad.hit qd, qd.aabb⟩

/-- `entities::constant_medium::ConstantMedium`.  The boundary trait object
is an abstract `Hittable`. -/
structure ConstantMedium where
  boundary : Hittable
  phase_function : ℕ
  neg_inv_density : ℚ

def ConstantMedium.new (boundary : Hittable) (density : ℚ)
    (phase_function : ℕ) : ConstantMedium :=
  { boundary := boundary, phase_function := phase_function,
    neg_inv_density := -1 / density }

/-- `ConstantMedium::hit`.  `lnU` models the draw `f32::ln(rand_f32())`; the
ray-direction length comes from the sqrt oracle. -/
def ConstantMedium.hit (F : FOracles) (cm : ConstantMedium) (lnU : ℚ)
    (ray : Ray) (tInterval : Interval) (record : HitRecord) : Bool × HitRecord :=
  match cm.boundary.hit ray Interval.universe HitRecord.new with
  | (false, _) => (false, record)
  | (true, rec1) =>
    match cm.boundary.hit ray (Interval.new (rec1.t + 1/10000) f32Max)
        HitRecord.new with
    | (false, _) => (false, record)
    | (true, rec2) =>
      let t1 := if rec1.t < tInterval.min then tInterval.min else rec1.t
      let t2 := if rec2.t > tInterval.max then tInterval.max else rec2.t
      if t1 ≥ t2 then (false, record)
      else
        let t1 := if t1 < 0 then 0 else t1
        let distanceInsideBoundary := (t2 - t1) * ray.direction.length F
        let hitDistance := cm.neg_inv_density * lnU
        if hitDistance > distanceInsideBoundary then (false, record)
        else
          let record := { record with t := t1 + hitDistance / ray.direction.length F }
          let record := { record with position := ray.at record.t }
          let record := record.setFaceNormal ray (Vec3.new 1 0 0)
          let record := { record with
                          front_face := true,
                          material := some cm.phase_function }
          (true, record)

def ConstantMedium.toHittable (F : FOracles) (cm : ConstantMedium)
    (lnU : ℚ) : Hittable :=
  ⟨ConstantMedium.hit F cm lnU, cm.boundary.aabb⟩

/-- `entities::entity::EntityList`. -/
structure EntityList where
  list : List Hittable
  bbox : AABB

/-- `EntityList::new`. -/
def EntityList.new : EntityList := ⟨[], AABB.default⟩

/-- `EntityList::add`: push and incrementally combine the cached box. -/
def EntityList.add (el : EntityList) (object : Hittable) : EntityList :=
  ⟨el.list ++ [object], AABB.combine el.bbox object.aabb⟩

/-- `EntityList::compute_aabb`: fold `combine` from the default box. -/
def EntityList.computeAabb (el : EntityList) : AABB :=
  el.list.foldl (fun acc e => AABB.combine acc e.aabb) AABB.default

/-- Loop state of `EntityList::hit`: hit flag, `closest_so_far`, the
threaded `tmp_record`, and the caller's record. -/
structure ScanState where
  isHit : Bool
  closest : ℚ
  tmp : HitRecord
  record : HitRecord

/-- One iteration of the `EntityList::hit` loop. -/
def scanStep (ray : Ray) (tmin : ℚ) (s : ScanState) (entity : Hittable) :
    ScanState :=
  match entity.hit ray (Interval.new tmin s.closest) s.tmp with
  | (true, tmp) => ⟨true, tmp.t, tmp, tmp⟩
  | (false, tmp) => ⟨s.isHit, s.closest, tmp, s.record⟩

/-- `EntityList::hit`: linear scan shrinking `closest_so_far`. -/
def EntityList.hit (el : EntityList) (ray : Ray) (tInterval : Interval)
    (record : HitRecord) : Bool × HitRecord :=
  let s := el.list.foldl (scanStep ray tInterval.min)
    ⟨false, tInterval.max, HitRecord.new, record⟩
  (s.isHit, s.record)

/-- `bvh::BVH` / `bvh::BVHNode`: a leaf wraps a primitive, a branch two
subtrees; every node carries its cached `bbox`. -/
inductive BVH where
  | leaf (h : Hittable) (bbox : AABB)
  | branch (left right : BVH) (bbox : AABB)

def BVH.bbox : BVH → AABB
  | .leaf _ b => b
  | .branch _ _ b => b

/-- In-order list of the primitives wrapped by the leaves. -/
def BVH.leaves : BVH → List Hittable
  | .leaf e _ => [e]
  | .branch l r _ => l.leaves ++ r.leaves

/-- `BVH::hit` (`impl Hittable for BVH`). -/
def BVH.hit : BVH → Ray → Interval → HitRecord → Bool × HitRecord
  | .leaf e bbox, ray, tInterval, record =>
      if !(AABB.hit bbox ray tInterval.toE) then (false, record)
      else e.hit ray tInterval record
  | .branch left right bbox, ray, tInterval, record =>
      if !(AABB.hit bbox ray tInterval.toE) then (false, record)
      else
        match left.hit ray tInterval record with
        | (hitLeft, record) =>
          match right.hit ray
              (Interval.new tInterval.min
                (if hitLeft then record.t else tInterval.max)) record with
          | (hitRight, record) => (hitLeft || hitRight, record)

/-- Stable insertion used to model `sort_unstable_by` with the key
`a.get_aabb().get_axis(axis).min` (any sorted permutation is a faithful model,
since the unstable sort leaves the order of equal keys unspecified). -/
def insertByKey (key : Hittable → ℚ) (e : Hittable) :
    List Hittable → List Hittable
  | [] => [e]
  | f :: fs => if key e < key f then e :: f :: fs else f :: insertByKey key e fs

def sortByKey (key : Hittable → ℚ) : List Hittable → List Hittable
  | [] => []
  | e :: es => insertByKey key e (sortByKey key es)

/-- Result of the builder: Rust's `compute_bvh` has no error path at all, it
either returns a tree or panics. -/
inductive BuildResult where
  | panicked (msg : String)
  | built (b : BVH)

/-- `BVH::compute_bvh`, with explicit structural fuel (the Rust recursion on
both halves of the split; fuel `>= length` never reaches the exhaustion
branch, see `computeBvhF_builds` and `computeBvhF_ne_panicked`). -/
def computeBvhF : ℕ → List Hittable → BuildResult
  | _, [] => .panicked "No elements..."
  | _, [e] => .built (.leaf e e.aabb)
  | 0, _ :: _ :: _ => .panicked "fuel exhausted (never reached: fuel >= length)"
  | fuel + 1, e0 :: e1 :: es =>
      let entities := e0 :: e1 :: es
      let bbox := entities.foldl (fun b e => AABB.combine b e.aabb) AABB.default
      let axis := bbox.getLongestAxis
      let sorted := sortByKey (fun e => (e.aabb.getAxis axis).min) entities
      let k := entities.length / 2
      match computeBvhF fuel (sorted.take k), computeBvhF fuel (sorted.drop k) with
      | .built l, .built r => .built (.branch l r (AABB.combine l.bbox r.bbox))
      | .panicked m, _ => .panicked m
      | _, .panicked m => .panicked m

/-- `BVH::compute_bvh` (fuel instantiated with the list length). -/
def computeBvh (entities : List Hittable) : BuildResult :=
  computeBvhF entities.length entities

/-- `BVH::new`. -/
def BVH.new (entities : EntityList) : BuildResult := computeBvh entities.list

/-- Reduction modulo 2^32 modelling Rust `u32` wrap-around arithmetic
(release semantics; in debug builds the same inputs abort by overflow
panic). -/
def u32 (n : ℕ) : ℕ := n % 4294967296

/-- `render`: `chunk_size = ((image_width * image_height) / thread_count) * 4`
in `u32` arithmetic. -/
def chunkSize (w h n : ℕ) : ℕ := u32 (u32 (w * h) / n * 4)

/-- `render`: `start = i * chunk_size`. -/
def threadStart (w h n i : ℕ) : ℕ := u32 (i * chunkSize w h n)

/-- `render`: `end = if i == thread_count - 1 { w * h * 4 } else
{ (i + 1) * chunk_size }`. -/
def threadEnd (w h n i : ℕ) : ℕ :=
  if i = n - 1 then u32 (u32 (w * h) * 4) else u32 ((i + 1) * chunkSize w h n)

/-- Byte size of the framebuffer, `width * height * 4`. -/
def totalBytes (w h : ℕ) : ℕ := u32 (u32 (w * h) * 4)

/-- Membership of byte index `b` in thread `i`'s range `start..end`. -/
def inThreadRange (w h n i b : ℕ) : Prop :=
  threadStart w h n i ≤ b ∧ b < threadEnd w h n i

/-- `math::mat3::Mat3` (array of three column vectors, indices 0,1,2). -/
structure Mat3 where
  c0 : Vec3
  c1 : Vec3
  c2 : Vec3
deriving DecidableEq, Repr

def Mat3.zero : Mat3 := ⟨Vec3.zero, Vec3.zero, Vec3.zero⟩

/-- `Mat3::get_orthonormal_basis`: `onb[2] = vec.normalize()`, then
`onb[1] = cross(onb[2], a).normalize()`, then
`onb[0] = cross(onb[2], onb[1]).normalize()`. -/
def Mat3.getOrthonormalBasis (F : FOracles) (vec : Vec3) : Mat3 :=
  let w := vec.normalize F
  let a := if |w.x| > 9 / 10 then Vec3.new 0 1 0 else Vec3.new 1 0 0
  let v1 := (cross w a).normalize F
  let u := (cross w v1).normalize F
  ⟨u, v1, w⟩

def Mat3.transpose (m : Mat3) : Mat3 :=
  ⟨⟨m.c0.x, m.c1.x, m.c2.x⟩, ⟨m.c0.y, m.c1.y, m.c2.y⟩, ⟨m.c0.z, m.c1.z, m.c2.z⟩⟩

/-- `mat3::dot_v3`. -/
def dotV3 (m : Mat3) (vec : Vec3) : Vec3 :=
  ⟨m.c0.x * vec.x + m.c0.y * vec.y + m.c0.z * vec.z,
   m.c1.x * vec.x + m.c1.y * vec.y + m.c1.z * vec.z,
   m.c2.x * vec.x + m.c2.y * vec.y + m.c2.z * vec.z⟩

/-- `material::Lambertian`; the boxed `TextureSampler` is its sampling
contract `value(uv, position) -> color`. -/
structure Lambertian where
  albedo : Vec2 → Vec3 → Vec3

/-- `Lambertian::scatter_pdf` as committed: the constant `1.0 / (2.0 * PI)`
(the `cos_theta / PI` body is commented out in the source). -/
def Lambertian.scatterPdf (_l : Lambertian) (_rayIn : Ray) (_record : HitRecord)
    (_rayScattered : Ray) : ℚ :=
  1 / (2 * f32Pi)

/-- `Lambertian::scatter`.  `randCosineDir` models the draw
`Vec3::random_cosine_hemisphere_direction()`.  Returns
(attenuation, scattered, pdf, flag). -/
def Lambertian.scatter (F : FOracles) (l : Lambertian) (randCosineDir : Vec3)
    (hitRecord : HitRecord) : Vec3 × Ray × ℚ × Bool :=
  let uwv := Mat3.getOrthonormalBasis F hitRecord.normal
  let scatterDirection := dotV3 uwv.transpose randCosineDir
  let scattered := Ray.new F hitRecord.position (scatterDirection.normalize F)
  let attenuation := l.albedo hitRecord.uv hitRecord.position
  let pdf := dot uwv.c2 scattered.direction / f32Pi
  (attenuation, scattered, pdf, true)

/-- Acceptance of a candidate parameter `t` against the upper bound `M` of
the query interval: strict primitives (`surrounds`, e.g. the sphere) demand
`t < M`, non-strict ones (`contains`, e.g. the quad) also accept `t = M`. -/
def acc (strict : Bool) (t M : ℚ) : Bool :=
  decide (t < M) || (!strict && decide (t = M))

/-- The behaviour of one primitive on the pencil of query intervals
`[m, M]`, `M` arbitrary, for a fixed ray: either it never hits, or there is
one candidate `(t, record)` accepted exactly when `acc strict t M`. -/
structure HitProfile where
  res : Option (ℚ × HitRecord)
  strict : Bool

/-- `e` behaves according to profile `p` on ray `r` and lower bound `m`:
the hit result does not depend on (and, on a miss, does not change) the
incoming record, the reported record's `t` is the candidate parameter, and
any accepted hit also passes the slab test against the primitive's own
cached AABB.  Geometric primitives whose hit point lies inside their padded
box satisfy this; it is the trait contract the BVH relies on. -/
def Models (r : Ray) (m : ℚ) (e : Hittable) (p : HitProfile) : Prop :=
  match p.res with
  | none => ∀ M record, e.hit r (Interval.new m M) record = (false, record)
  | some (t, hrec) =>
      hrec.t = t ∧ m ≤ t ∧
      (∀ M record, e.hit r (Interval.new m M) record =
        if acc p.strict t M then (true, hrec) else (false, record)) ∧
      (∀ M, acc p.strict t M = true →
        AABB.hit e.aabb r (EInterval.mk (.fin m) (.fin M)) = true)

/-- Frame discipline: a miss leaves the caller's record untouched. -/
def FrameOK (e : Hittable) : Prop :=
  ∀ ray tInterval record, (e.hit ray tInterval record).1 = false →
    (e.hit ray tInterval record).2 = record

/-- Material discipline: a reported hit always carries a material. -/
def MatOK (e : Hittable) : Prop :=
  ∀ ray tInterval record, (e.hit ray tInterval record).1 = true →
    ((e.hit ray tInterval record).2).material.isSome = true

/-- Abstract scan: the `(is_hit, closest_so_far)` evolution of the
`EntityList::hit` loop (the record components are dropped; under `Models`
they do not influence this evolution). -/
def scanTStep (r : Ray) (m : ℚ) (s : Bool × ℚ) (e : Hittable) : Bool × ℚ :=
  match e.hit r (Interval.new m s.2) HitRecord.new with
  | (true, record) => (true, record.t)
  | (false, _) => s

def scanT (r : Ray) (m : ℚ) (es : List Hittable) (s : Bool × ℚ) : Bool × ℚ :=
  es.foldl (scanTStep r m) s

/-- Box conservativeness of a built tree: each leaf box contains its
primitive's box, each branch box contains its children's boxes. -/
def Conserv : BVH → Prop
  | .leaf e b => AABB.sub e.aabb b
  | .branch l r b => Conserv l ∧ Conserv r ∧ AABB.sub l.bbox b ∧ AABB.sub r.bbox b

/-- Extract the tree from a successful build (dummy leaf otherwise). -/
def bvhOrDummy : BuildResult → BVH
  | .built b => b
  | .panicked _ =>
      .leaf ⟨fun _ _ record => (false, record), AABB.default⟩ AABB.default

/-- Concrete unit quad in the plane z = 0 (corner at the origin). -/
def quadA : Quad := Quad.new ratOracles (vec3 0 0 0) (vec3 1 0 0) (vec3 0 1 0) 0

/-- Concrete coplanar quad overlapping `quadA`, different material. -/
def quadB : Quad :=
  Quad.new ratOracles (vec3 (-1) 0 0) (vec3 2 0 0) (vec3 0 1 0) 1

def hitableA : Hittable := quadA.toHittable

def hitableB : Hittable := quadB.toHittable

/-- Scene list in insertion order `[A, B]` (the BVH build sorts it to
`[B, A]` on the x axis). -/
def tieList : List Hittable := [hitableA, hitableB]

def tieEL : EntityList := (EntityList.new.add hitableA).add hitableB

/-- Ray through `(1/2, 1/2)` of the common plane, hitting both quads at
`t = 1`. -/
def tieRay : Ray := ⟨vec3 (1/2) (1/2) 1, vec3 0 0 (-1)⟩

def tieInterval : Interval := ⟨1/1000, 100⟩

def tieBvh : BVH := bvhOrDummy (computeBvh tieList)

/-- The hit record produced by `quadA` on `tieRay`. -/
def recA : HitRecord :=
  ⟨1, vec3 (1/2) (1/2) 0, vec3 0 0 1, ⟨1/2, 1/2⟩, some 0, true⟩

/-- The hit record produced by `quadB` on `tieRay`. -/
def recB : HitRecord :=
  ⟨1, vec3 (1/2) (1/2) 0, vec3 0 0 1, ⟨3/4, 1/2⟩, some 1, true⟩

def profA : HitProfile := ⟨some (1, recA), false⟩

def profB : HitProfile := ⟨some (1, recB), false⟩

/-- Sphere with box `[1,2]^3` (used against the default-seeded cached box). -/
def sphere15 : Sphere := Sphere.new (vec3 (3/2) (3/2) (3/2)) (1/2) 7

/-- Unit sphere at the origin (C8/C10 witnesses). -/
def sphere01 : Sphere := Sphere.new (vec3 0 0 0) 1 3

/-- Axis ray hitting `sphere01` at `t = 1`. -/
def sphRay : Ray := ⟨vec3 0 0 2, vec3 0 0 (-1)⟩

/-- The box `[0,1]^3` of the slab-test acceptance test. -/
def unitBox : AABB := ⟨⟨0, 1⟩, ⟨0, 1⟩, ⟨0, 1⟩⟩

/-- Ray origin `(-1, 1/2, 1/2)`, direction `(1, 0, 0)`. -/
def slabRay : Ray := ⟨vec3 (-1) (1/2) (1/2), vec3 1 0 0⟩

/-- Texture-free Lambertian used by the C3 counterexample. -/
def lamC : Lambertian := ⟨fun _ _ => Vec3.zero⟩

/-- Scattered ray along the surface normal of `recA` (so cos(theta) = 1). -/
def scatRayC : Ray := ⟨vec3 0 0 0, vec3 0 0 1⟩

def rayInC : Ray := ⟨vec3 0 0 1, vec3 0 0 (-1)⟩

/-- Ray toward `Q + 1.5 U + 0.5 V` of `quadA` (outside the unit square). -/
def rayMiss : Ray := ⟨vec3 (3/2) (1/2) 1, vec3 0 0 (-1)⟩

/-- Ray far from the tie scene and from `sphere01` (misses everything). -/
def farRay : Ray := ⟨vec3 5 5 1, vec3 0 0 (-1)⟩

/-- A directly-built one-leaf tree over the unit quad. -/
def leafA : BVH := .leaf hitableA hitableA.aabb

/-- Smaller of the two axis slab parameters (nonzero direction component). -/
def loSlab (axMin axMax o d : ℚ) : ℚ :=
  Min.min ((axMin - o) / d) ((axMax - o) / d)

/-- Larger of the two axis slab parameters (nonzero direction component). -/
def hiSlab (axMin axMax o d : ℚ) : ℚ :=
  Max.max ((axMin - o) / d) ((axMax - o) / d)

/-- For a zero direction component, the IEEE slab arithmetic (signed
infinities and `0 * inf = nan`) leaves the running interval unchanged exactly
in these origin-versus-bounds configurations; in every other configuration
the axis gate rejects. -/
def axisPass0 (axMin axMax o : ℚ) : Prop :=
  (axMin < o ∧ o < axMax) ∨ (axMax < o ∧ o < axMin) ∨
  (o = axMin ∧ axMax ≤ o) ∨ (o = axMax ∧ o ≤ axMin)

/-- Rational-valued effect of one slab axis on the running interval
(identity for a zero direction component that passes). -/
def axEff (axMin axMax o d : ℚ) (s : ℚ × ℚ) : ℚ × ℚ :=
  if d = 0 then s
  else (Max.max s.1 (loSlab axMin axMax o d), Min.min s.2 (hiSlab axMin axMax o d))

/-- An axis does not reject outright: nonzero direction, or a passing
zero-direction configuration. -/
def axOK (axMin axMax o d : ℚ) : Prop := d ≠ 0 ∨ axisPass0 axMin axMax o

/-- One axis record of the slab loop: min bound, max bound, origin and
direction components. -/
structure AxP where
  axMin : ℚ
  axMax : ℚ
  o : ℚ
  d : ℚ

/-- The slab loop of `AABB::hit` over an explicit list of axes (proof-side
restatement; `AABB.hit` is literally this fold over its three axes, see
`aabbHit_eq_fold`). -/
def axisFold : List AxP → EInterval → Bool
  | [], _ => true
  | a :: rest, s =>
      let s1 := slabAxis a.axMin a.axMax a.o a.d s
      if EF.le s1.max s1.min then false else axisFold rest s1

/-- The three axes of a box/ray pair, in loop order X, Y, Z. -/
def axesOf (bb : AABB) (ray : Ray) : List AxP :=
  [⟨bb.x.min, bb.x.max, ray.origin.x, ray.direction.x⟩,
   ⟨bb.y.min, bb.y.max, ray.origin.y, ray.direction.y⟩,
   ⟨bb.z.min, bb.z.max, ray.origin.z, ray.direction.z⟩]

/-- Rational effect of a list of axes. -/
def effFold : List AxP → (ℚ × ℚ) → (ℚ × ℚ)
  | [], s => s
  | a :: rest, s => effFold rest (axEff a.axMin a.axMax a.o a.d s)

/-- Point containment in a box, axis-wise inclusive (the spec's notion "every
point of A", used to state the combine properties). -/
def AABB.containsPoint (bb : AABB) (p : Vec3) : Bool :=
  bb.x.contains p.x && bb.y.contains p.y && bb.z.contains p.z

theorem Interval.sub_refl (a : Interval) : a.sub a := ⟨le_refl _, le_refl _⟩

theorem Interval.sub_trans {a b c : Interval} (h1 : a.sub b) (h2 : b.sub c) :
    a.sub c :=
  ⟨le_trans h2.1 h1.1, le_trans h1.2 h2.2⟩

theorem Interval.sub_combineL (a b : Interval) : a.sub (Interval.combine a b) :=
  ⟨min_le_left _ _, le_max_left _ _⟩

theorem Interval.sub_combineR (a b : Interval) : b.sub (Interval.combine a b) :=
  ⟨min_le_right _ _, le_max_right _ _⟩

theorem AABB.boxSub_refl (a : AABB) : a.sub a :=
  ⟨Interval.sub_refl _, Interval.sub_refl _, Interval.sub_refl _⟩

theorem AABB.boxSub_trans {a b c : AABB} (h1 : a.sub b) (h2 : b.sub c) : a.sub c :=
  ⟨Interval.sub_trans h1.1 h2.1, Interval.sub_trans h1.2.1 h2.2.1,
   Interval.sub_trans h1.2.2 h2.2.2⟩

theorem AABB.boxSub_combineL (a b : AABB) : a.sub (AABB.combine a b) :=
  ⟨Interval.sub_combineL _ _, Interval.sub_combineL _ _, Interval.sub_combineL _ _⟩

theorem AABB.boxSub_combineR (a b : AABB) : b.sub (AABB.combine a b) :=
  ⟨Interval.sub_combineR _ _, Interval.sub_combineR _ _, Interval.sub_combineR _ _⟩

theorem Interval.contains_of_sub {a b : Interval} (h : a.sub b) (x : ℚ)
    (hx : a.contains x = true) : b.contains x = true := by
  simp only [Interval.contains, Bool.and_eq_true, decide_eq_true_eq] at *
  exact ⟨le_trans h.1 hx.1, le_trans hx.2 h.2⟩

/-- Claim C5: `combine` contains every point of either input (intervals and,
axis-wise, boxes), its bounds are the min of the minima and the max of the
maxima, and among intervals covering all points of two nonempty inputs it is
the tightest. -/
theorem c5_combine_tightest :
    (∀ (a b : Interval) (x : ℚ),
      (a.contains x = true ∨ b.contains x = true) →
        (Interval.combine a b).contains x = true) ∧
    (∀ a b : Interval,
      (Interval.combine a b).min = Min.min a.min b.min ∧
      (Interval.combine a b).max = Max.max a.max b.max) ∧
    (∀ a b c : Interval, a.min ≤ a.max → b.min ≤ b.max →
      (∀ y, a.contains y = true → c.contains y = true) →
      (∀ y, b.contains y = true → c.contains y = true) →
      ∀ y, (Interval.combine a b).contains y = true → c.contains y = true) ∧
    (∀ (bbA bbB : AABB) (p : Vec3),
      (bbA.containsPoint p = true ∨ bbB.containsPoint p = true) →
        (AABB.combine bbA bbB).containsPoint p = true) := by
  refine ⟨?_, ?_, ?_, ?_⟩
  · rintro a b x (hx | hx)
    · exact Interval.contains_of_sub (Interval.sub_combineL a b) x hx
    · exact Interval.contains_of_sub (Interval.sub_combineR a b) x hx
  · intro a b
    exact ⟨rfl, rfl⟩
  · intro a b c ha hb hca hcb y hy
    have hAmin := hca a.min (by
      simp only [Interval.contains, Bool.and_eq_true, decide_eq_true_eq]
      exact ⟨le_refl _, ha⟩)
    have hAmax := hca a.max (by
      simp only [Interval.contains, Bool.and_eq_true, decide_eq_true_eq]
      exact ⟨ha, le_refl _⟩)
    have hBmin := hcb b.min (by
      simp only [Interval.contains, Bool.and_eq_true, decide_eq_true_eq]
      exact ⟨le_refl _, hb⟩)
    have hBmax := hcb b.max (by
      simp only [Interval.contains, Bool.and_eq_true, decide_eq_true_eq]
      exact ⟨hb, le_refl _⟩)
    simp only [Interval.contains, Interval.combine, Bool.and_eq_true,
      decide_eq_true_eq] at *
    constructor
    · calc c.min ≤ Min.min a.min b.min := le_min hAmin.1 hBmin.1
        _ ≤ y := hy.1
    · calc y ≤ Max.max a.max b.max := hy.2
        _ ≤ c.max := max_le hAmax.2 hBmax.2
  · rintro bbA bbB p (hp | hp) <;>
      simp only [AABB.containsPoint, AABB.combine, Bool.and_eq_true] at *
    · obtain ⟨⟨h1, h2⟩, h3⟩ := hp
      exact ⟨⟨Interval.contains_of_sub (Interval.sub_combineL _ _) _ h1,
        Interval.contains_of_sub (Interval.sub_combineL _ _) _ h2⟩,
        Interval.contains_of_sub (Interval.sub_combineL _ _) _ h3⟩
    · obtain ⟨⟨h1, h2⟩, h3⟩ := hp
      exact ⟨⟨Interval.contains_of_sub (Interval.sub_combineR _ _) _ h1,
        Interval.contains_of_sub (Interval.sub_combineR _ _) _ h2⟩,
        Interval.contains_of_sub (Interval.sub_combineR _ _) _ h3⟩

/-- Witness for C5 at concrete inputs (including an empty-sentinel input):
containment through `combine([0,1], empty)` and tightness of
`combine([0,1],[2,3])` inside `[0,3]`. -/
theorem c5_combine_tightest_witness :
    (Interval.combine (Interval.new 0 1) Interval.empty).contains (1/2) = true ∧
    (Interval.new 0 3).contains 2 = true := by
  constructor
  · exact c5_combine_tightest.1 (Interval.new 0 1) Interval.empty (1/2)
      (Or.inl (by with_unfolding_all decide))
  · exact c5_combine_tightest.2.2.1 (Interval.new 0 1) (Interval.new 2 3)
      (Interval.new 0 3) (by norm_num [Interval.new]) (by norm_num [Interval.new])
      (by
        intro y hy
        simp only [Interval.contains, Interval.new, Bool.and_eq_true,
          decide_eq_true_eq] at *
        exact ⟨hy.1, by linarith [hy.2]⟩)
      (by
        intro y hy
        simp only [Interval.contains, Interval.new, Bool.and_eq_true,
          decide_eq_true_eq] at *
        exact ⟨by linarith [hy.1], hy.2⟩)
      2 (by with_unfolding_all decide)

/-- Claim C2: the BVH builder, given an empty primitive list, panics
("No elements...") — i.e. terminates the process instead of returning a
recoverable error (there is no error path in `compute_bvh` at all). -/
theorem c2_empty_build_panics : computeBvh [] = .panicked "No elements..." := rfl

/-- Claim C7: the slab test divides unguarded, so a zero direction component
produces a signed-infinite entry/exit parameter for that axis (whenever the
origin is off that bound; equality gives IEEE `0 * inf = nan`), and on the
box `[0,1]^3` the ray from `(-1, 1/2, 1/2)` along `(1,0,0)` with query
interval `[0, +inf)` is reported as a hit. -/
theorem c7_slab_test :
    (∀ bound o : ℚ, bound ≠ o →
      slabT bound o 0 = .pinf ∨ slabT bound o 0 = .ninf) ∧
    AABB.hit unitBox slabRay ⟨.fin 0, .pinf⟩ = true := by
  constructor
  · intro bound o h
    have hdiv : EF.div (.fin 1) (.fin 0) = .pinf := by simp [EF.div]
    rcases lt_or_gt_of_ne h with hlt | hgt
    · right
      rw [slabT, hdiv]
      simp only [EF.mul]
      rw [if_neg (by linarith), if_pos (by linarith)]
    · left
      rw [slabT, hdiv]
      simp only [EF.mul]
      rw [if_pos (by linarith)]
  · with_unfolding_all decide

/-- Witness for C7: the zero-direction x-axis of `unitBox` against origin
`1/2` yields an infinite parameter, and the concrete slab query hits. -/
theorem c7_slab_test_witness :
    (slabT 0 (1/2) 0 = .pinf ∨ slabT 0 (1/2) 0 = .ninf) ∧
    AABB.hit unitBox slabRay ⟨.fin 0, .pinf⟩ = true :=
  ⟨c7_slab_test.1 0 (1/2) (by norm_num), c7_slab_test.2⟩

theorem addAll_bbox (es : List Hittable) (el : EntityList) :
    (es.foldl EntityList.add el).bbox =
      es.foldl (fun acc e => AABB.combine acc e.aabb) el.bbox := by
  induction es generalizing el with
  | nil => rfl
  | cons e es ih => simpa [EntityList.add] using ih (el.add e)

theorem foldl_combine_grows (es : List Hittable) (seed : AABB) :
    AABB.sub seed (es.foldl (fun acc e => AABB.combine acc e.aabb) seed) := by
  induction es generalizing seed with
  | nil => exact AABB.boxSub_refl _
  | cons e es ih =>
      exact AABB.boxSub_trans (AABB.boxSub_combineL seed e.aabb) (ih _)

theorem sub_foldl_combine (es : List Hittable) (seed : AABB) (e : Hittable)
    (he : e ∈ es) :
    AABB.sub e.aabb (es.foldl (fun acc x => AABB.combine acc x.aabb) seed) := by
  induction es generalizing seed with
  | nil => cases he
  | cons f es ih =>
      rcases List.mem_cons.mp he with h | h
      · subst h
        exact AABB.boxSub_trans (AABB.boxSub_combineR seed e.aabb)
          (foldl_combine_grows es _)
      · exact ih (AABB.combine seed f.aabb) h

/-- Claim C9 (amended): after any sequence of `add`s from `EntityList::new`,
the cached box equals the fold of `combine` seeded with the default `[0,0]`
box (exactly `compute_aabb`'s fold) and contains every member's box; because
of the `[0,0]` seed it can strictly exceed the plain union of the members'
boxes. -/
theorem c9_entitylist_bbox :
    (∀ es : List Hittable,
      (es.foldl EntityList.add EntityList.new).bbox =
        EntityList.computeAabb ⟨es, AABB.default⟩) ∧
    (∀ (es : List Hittable) (e : Hittable), e ∈ es →
      AABB.sub e.aabb (es.foldl EntityList.add EntityList.new).bbox) := by
  constructor
  · intro es
    rw [addAll_bbox]
    rfl
  · intro es e he
    rw [addAll_bbox]
    exact sub_foldl_combine es AABB.default e he

/-- Witness for C9 on the one-sphere list. -/
theorem c9_entitylist_bbox_witness :
    ([sphere15.toHittable ratOracles].foldl EntityList.add EntityList.new).bbox =
      EntityList.computeAabb ⟨[sphere15.toHittable ratOracles], AABB.default⟩ ∧
    AABB.sub (sphere15.toHittable ratOracles).aabb
      ([sphere15.toHittable ratOracles].foldl EntityList.add EntityList.new).bbox :=
  ⟨c9_entitylist_bbox.1 _,
   c9_entitylist_bbox.2 _ _ (List.mem_singleton.mpr rfl)⟩

/-- Counterexample for C9 as stated: one added sphere with box `[1,2]^3`
leaves a cached box `[0,2]^3` (the default seed), which is not the union of
the members' boxes and extends below it on every axis. -/
theorem c9_counterexample :
    (EntityList.new.add (sphere15.toHittable ratOracles)).bbox ≠
      (sphere15.toHittable ratOracles).aabb ∧
    (EntityList.new.add (sphere15.toHittable ratOracles)).bbox.x.min = 0 ∧
    (sphere15.toHittable ratOracles).aabb.x.min = 1 := by
  with_unfolding_all decide

/-- Claim C3 (amended): `Lambertian::scatter` reports, for the direction it
returns, exactly `pdf = dot(unit normal, scattered direction) / PI` (the
cosine of the angle to the surface normal over pi); `Lambertian::scatter_pdf`
however returns the constant `1 / (2 PI)` — the uniform-hemisphere density —
for every scattered ray, not `cos(theta)/PI`. -/
theorem c3_lambertian_pdf :
    (∀ (F : FOracles) (l : Lambertian) (randCosineDir : Vec3)
        (hitRecord : HitRecord),
      (l.scatter F randCosineDir hitRecord).2.2.1 =
        dot (hitRecord.normal.normalize F)
          ((l.scatter F randCosineDir hitRecord).2.1).direction / f32Pi) ∧
    (∀ (l : Lambertian) (rayIn : Ray) (record : HitRecord) (raySc : Ray),
      l.scatterPdf rayIn record raySc = 1 / (2 * f32Pi)) := by
  exact ⟨fun F l rd hr => rfl, fun l r rec rs => rfl⟩

/-- Counterexample for C3 as stated: at a scattered direction equal to the
unit normal, `cos(theta)/PI = 1/PI`, but `scatter_pdf` returns `1/(2 PI)`. -/
theorem c3_counterexample :
    Lambertian.scatterPdf lamC rayInC recA scatRayC ≠
      dot (recA.normal.normalize ratOracles) scatRayC.direction / f32Pi := by
  with_unfolding_all decide

theorem chunkSize_eq (w h n : ℕ) (hov : w * h * 4 < 4294967296) :
    chunkSize w h n = w * h / n * 4 := by
  have hwh : w * h < 4294967296 := by omega
  have hle : w * h / n * 4 ≤ w * h * 4 :=
    Nat.mul_le_mul_right 4 (Nat.div_le_self (w * h) n)
  unfold chunkSize u32
  rw [Nat.mod_eq_of_lt hwh, Nat.mod_eq_of_lt (by omega)]

theorem totalBytes_eq (w h : ℕ) (hov : w * h * 4 < 4294967296) :
    totalBytes w h = w * h * 4 := by
  have hwh : w * h < 4294967296 := by omega
  unfold totalBytes u32
  rw [Nat.mod_eq_of_lt hwh, Nat.mod_eq_of_lt hov]

theorem mulChunk_le (w h n i : ℕ) (hi : i ≤ n) :
    i * (w * h / n * 4) ≤ w * h * 4 := by
  calc i * (w * h / n * 4) ≤ n * (w * h / n * 4) :=
        Nat.mul_le_mul_right _ hi
    _ = w * h / n * n * 4 := by ring
    _ ≤ w * h * 4 := Nat.mul_le_mul_right 4 (Nat.div_mul_le_self (w * h) n)

theorem threadStart_eq (w h n i : ℕ) (hi : i ≤ n)
    (hov : w * h * 4 < 4294967296) :
    threadStart w h n i = i * (w * h / n * 4) := by
  unfold threadStart
  rw [chunkSize_eq w h n hov]
  exact Nat.mod_eq_of_lt (lt_of_le_of_lt (mulChunk_le w h n i hi) hov)

theorem threadEnd_eq_last (w h n : ℕ) (hov : w * h * 4 < 4294967296) :
    threadEnd w h n (n - 1) = w * h * 4 := by
  unfold threadEnd
  rw [if_pos rfl]
  exact totalBytes_eq w h hov

theorem threadEnd_eq_mid (w h n i : ℕ) (hi : i + 1 ≤ n) (hne : i ≠ n - 1)
    (hov : w * h * 4 < 4294967296) :
    threadEnd w h n i = (i + 1) * (w * h / n * 4) := by
  unfold threadEnd
  rw [if_neg hne, chunkSize_eq w h n hov]
  exact Nat.mod_eq_of_lt (lt_of_le_of_lt (mulChunk_le w h n (i + 1) hi) hov)

theorem range_separated (w h n i j : ℕ) (hij : i < j) (hj : j < n)
    (hov : w * h * 4 < 4294967296) :
    threadEnd w h n i ≤ threadStart w h n j := by
  have hne : i ≠ n - 1 := by omega
  rw [threadEnd_eq_mid w h n i (by omega) hne hov,
    threadStart_eq w h n j (by omega) hov]
  exact Nat.mul_le_mul_right _ (by omega)

/-- Claim C4 (amended): for any thread count `N >= 1` and any image whose
byte count `w*h*4` does not overflow `u32`, the per-thread ranges
`[i*chunk, (i+1)*chunk)` with the last thread ending at `w*h*4` are pairwise
disjoint and cover exactly the byte index set `[0, w*h*4)`.  (Without the
overflow bound the `u32` arithmetic wraps and coverage fails, see the
counterexample.) -/
theorem c4_render_partition (w h n : ℕ) (hn : 1 ≤ n)
    (hov : w * h * 4 < 4294967296) :
    (∀ i j, i < n → j < n → i ≠ j →
      ∀ b, inThreadRange w h n i b → ¬ inThreadRange w h n j b) ∧
    (∀ b, b < totalBytes w h ↔ ∃ i, i < n ∧ inThreadRange w h n i b) := by
  constructor
  · intro i j hi hj hne b hbi hbj
    rcases lt_or_gt_of_ne hne with hlt | hgt
    · have hsep := range_separated w h n i j hlt hj hov
      exact absurd (lt_of_lt_of_le hbi.2 (le_trans hsep hbj.1)) (lt_irrefl b)
    · have hsep := range_separated w h n j i hgt hi hov
      exact absurd (lt_of_lt_of_le hbj.2 (le_trans hsep hbi.1)) (lt_irrefl b)
  · intro b
    rw [totalBytes_eq w h hov]
    constructor
    · intro hb
      by_cases hC : w * h / n * 4 = 0
      · refine ⟨n - 1, by omega, ?_, ?_⟩
        · rw [threadStart_eq w h n (n - 1) (by omega) hov, hC, Nat.mul_zero]
          exact Nat.zero_le b
        · rw [threadEnd_eq_last w h n hov]
          exact hb
      · have hCpos : 0 < w * h / n * 4 := Nat.pos_of_ne_zero hC
        set C := w * h / n * 4 with hCdef
        by_cases hsmall : b / C < n - 1
        · refine ⟨b / C, by omega, ?_, ?_⟩
          · rw [threadStart_eq w h n (b / C) (by omega) hov, ← hCdef]
            exact Nat.div_mul_le_self b C
          · rw [threadEnd_eq_mid w h n (b / C) (by omega) (by omega) hov,
              ← hCdef]
            have hmod := Nat.div_add_mod b C
            have hrlt := Nat.mod_lt b hCpos
            calc b = C * (b / C) + b % C := (Nat.div_add_mod b C).symm
              _ < C * (b / C) + C := by omega
              _ = (b / C + 1) * C := by ring
        · refine ⟨n - 1, by omega, ?_, ?_⟩
          · rw [threadStart_eq w h n (n - 1) (by omega) hov, ← hCdef]
            calc (n - 1) * C ≤ b / C * C := Nat.mul_le_mul_right C (by omega)
              _ ≤ b := Nat.div_mul_le_self b C
          · rw [threadEnd_eq_last w h n hov]
            exact hb
    · rintro ⟨i, hi, hstart, hend⟩
      by_cases hlast : i = n - 1
      · subst hlast
        rw [threadEnd_eq_last w h n hov] at hend
        exact hend
      · rw [threadEnd_eq_mid w h n i (by omega) hlast hov] at hend
        exact lt_of_lt_of_le hend (mulChunk_le w h n (i + 1) (by omega))

/-- Witness for C4 at the program's own configuration (800x600 image,
24 threads). -/
theorem c4_render_partition_witness :
    (∀ i j, i < 24 → j < 24 → i ≠ j →
      ∀ b, inThreadRange 800 600 24 i b → ¬ inThreadRange 800 600 24 j b) ∧
    (∀ b, b < totalBytes 800 600 ↔ ∃ i, i < 24 ∧ inThreadRange 800 600 24 i b) :=
  c4_render_partition 800 600 24 (by norm_num) (by norm_num)

/-- Counterexample for C4 as stated (arbitrary width/height): for
w = 65536, h = 16384 the byte count 65536*16384*4 = 2^32 wraps to 0 in `u32`
arithmetic, and with N = 2 thread 0 still covers `[0, 2^31)` — byte 0 is
written although the byte index set `[0, w*h*4)` is empty, so the ranges do
not tile the framebuffer byte set. -/
theorem c4_counterexample :
    ¬ (∀ b, b < totalBytes 65536 16384 ↔
        ∃ i, i < 2 ∧ inThreadRange 65536 16384 2 i b) := by
  intro hAll
  have h0 : (0 : ℕ) < totalBytes 65536 16384 :=
    (hAll 0).mpr ⟨0, by norm_num, by
      constructor
      · exact Nat.le_refl 0
      · show (0 : ℕ) < threadEnd 65536 16384 2 0
        decide⟩
  have hz : totalBytes 65536 16384 = 0 := by decide
  omega

/-- Claim C6: for a ray that is not near-parallel (`|dot(n,d)| >= 1e-6`) and
whose plane parameter `t` lies in the query interval, `Quad::hit` reports a
hit exactly when both planar coordinates `alpha` and `beta` lie in the closed
unit interval (boundary inclusive), and then stores `(alpha, beta)` as the
record's UV; concretely, the ray toward `Q + 0.5U + 0.5V` of the unit quad
hits with UV `(1/2, 1/2)`, and the ray toward `Q + 1.5U + 0.5V` misses. -/
theorem c6_quad_interior :
    (∀ (qd : Quad) (ray : Ray) (tI : Interval) (record : HitRecord),
      ¬ (|dot qd.normal ray.direction| < 1 / 1000000) →
      tI.contains (Quad.hitT qd ray) = true →
      (((Quad.hit qd ray tI record).1 = true ↔
        (0 ≤ Quad.alphaOf qd ray (Quad.hitT qd ray) ∧
         Quad.alphaOf qd ray (Quad.hitT qd ray) ≤ 1 ∧
         0 ≤ Quad.betaOf qd ray (Quad.hitT qd ray) ∧
         Quad.betaOf qd ray (Quad.hitT qd ray) ≤ 1)) ∧
       ((Quad.hit qd ray tI record).1 = true →
        ((Quad.hit qd ray tI record).2).uv =
          Vec2.new (Quad.alphaOf qd ray (Quad.hitT qd ray))
            (Quad.betaOf qd ray (Quad.hitT qd ray))))) ∧
    ((Quad.hit quadA tieRay tieInterval HitRecord.new).1 = true ∧
      (Quad.hit quadA tieRay tieInterval HitRecord.new).2.uv =
        Vec2.new (1/2) (1/2)) ∧
    (Quad.hit quadA rayMiss tieInterval HitRecord.new).1 = false := by
  refine ⟨?_, ⟨?_, ?_⟩, ?_⟩
  · intro qd ray tI record hden hcont
    simp only [Quad.hit]
    rw [if_neg hden]
    rw [show (qd.d - dot qd.normal ray.origin) / dot qd.normal ray.direction =
      Quad.hitT qd ray from rfl]
    rw [hcont]
    simp only [Bool.not_true]
    rw [if_neg (by simp : ¬ ((false : Bool) = true))]
    rw [show dot qd.w (cross (Vec3.sub (Ray.at ray (Quad.hitT qd ray)) qd.q) qd.v) =
      Quad.alphaOf qd ray (Quad.hitT qd ray) from rfl]
    rw [show dot qd.w (cross qd.u (Vec3.sub (Ray.at ray (Quad.hitT qd ray)) qd.q)) =
      Quad.betaOf qd ray (Quad.hitT qd ray) from rfl]
    generalize Quad.alphaOf qd ray (Quad.hitT qd ray) = alpha
    generalize Quad.betaOf qd ray (Quad.hitT qd ray) = beta
    have hcu : ∀ x : ℚ, (Interval.new 0 1).contains x = true ↔ 0 ≤ x ∧ x ≤ 1 := by
      intro x
      simp [Interval.contains, Interval.new]
    simp only [Quad.isInterior]
    cases hca : (Interval.new 0 1).contains alpha <;>
      cases hcb : (Interval.new 0 1).contains beta <;> simp
    · intro h0 h1 _
      exact absurd ((hcu alpha).mpr ⟨h0, h1⟩) (by simp [hca])
    · intro h0 h1 _
      exact absurd ((hcu alpha).mpr ⟨h0, h1⟩) (by simp [hca])
    · intro _ _ h2
      by_contra hle
      push_neg at hle
      exact absurd ((hcu beta).mpr ⟨h2, hle⟩) (by simp [hcb])
    · exact ⟨⟨((hcu alpha).mp hca).1, ((hcu alpha).mp hca).2,
        ((hcu beta).mp hcb).1, ((hcu beta).mp hcb).2⟩, rfl⟩
  · with_unfolding_all decide
  · with_unfolding_all decide
  · with_unfolding_all decide

/-- Witness for C6: the general part applied to the unit quad and the ray
toward its center. -/
theorem c6_quad_interior_witness :
    ((Quad.hit quadA tieRay tieInterval HitRecord.new).1 = true ↔
      (0 ≤ Quad.alphaOf quadA tieRay (Quad.hitT quadA tieRay) ∧
       Quad.alphaOf quadA tieRay (Quad.hitT quadA tieRay) ≤ 1 ∧
       0 ≤ Quad.betaOf quadA tieRay (Quad.hitT quadA tieRay) ∧
       Quad.betaOf quadA tieRay (Quad.hitT quadA tieRay) ≤ 1)) ∧
    ((Quad.hit quadA tieRay tieInterval HitRecord.new).1 = true →
      ((Quad.hit quadA tieRay tieInterval HitRecord.new).2).uv =
        Vec2.new (Quad.alphaOf quadA tieRay (Quad.hitT quadA tieRay))
          (Quad.betaOf quadA tieRay (Quad.hitT quadA tieRay))) :=
  c6_quad_interior.1 quadA tieRay tieInterval HitRecord.new
    (by with_unfolding_all decide) (by with_unfolding_all decide)

theorem sphere_hit_frame (F : FOracles) (s : Sphere) (ray : Ray)
    (tI : Interval) (record : HitRecord) :
    (Sphere.hit F s ray tI record).1 = false →
      (Sphere.hit F s ray tI record).2 = record := by
  simp only [Sphere.hit]
  repeat' split
  all_goals first
    | (intro _; rfl)
    | (intro h; exact Bool.noConfusion h)

theorem sphere_hit_material (F : FOracles) (s : Sphere) (ray : Ray)
    (tI : Interval) (record : HitRecord) :
    (Sphere.hit F s ray tI record).1 = true →
      ((Sphere.hit F s ray tI record).2).material.isSome = true := by
  simp only [Sphere.hit]
  repeat' split
  all_goals first
    | (intro h; exact Bool.noConfusion h)
    | (intro _; rfl)

theorem isInterior_frame (alpha beta : ℚ) (record : HitRecord) :
    (Quad.isInterior alpha beta record).1 = false →
      (Quad.isInterior alpha beta record).2 = record := by
  simp only [Quad.isInterior]
  split
  · intro _
    rfl
  · intro h
    exact Bool.noConfusion h

theorem quad_hit_frame (qd : Quad) (ray : Ray) (tI : Interval)
    (record : HitRecord) :
    (Quad.hit qd ray tI record).1 = false →
      (Quad.hit qd ray tI record).2 = record := by
  simp only [Quad.hit]
  split
  · intro _
    rfl
  · split
    · intro _
      rfl
    · rcases hI : Quad.isInterior
          (dot qd.w (cross (Vec3.sub (Ray.at ray
            ((qd.d - dot qd.normal ray.origin) / dot qd.normal ray.direction)) qd.q) qd.v))
          (dot qd.w (cross qd.u (Vec3.sub (Ray.at ray
            ((qd.d - dot qd.normal ray.origin) / dot qd.normal ray.direction)) qd.q)))
          record with ⟨bi, ri⟩
      cases bi
      · intro _
        have h6 := isInterior_frame
          (dot qd.w (cross (Vec3.sub (Ray.at ray
            ((qd.d - dot qd.normal ray.origin) / dot qd.normal ray.direction)) qd.q) qd.v))
          (dot qd.w (cross qd.u (Vec3.sub (Ray.at ray
            ((qd.d - dot qd.normal ray.origin) / dot qd.normal ray.direction)) qd.q)))
          record
        rw [hI] at h6
        exact h6 rfl
      · intro h
        exact Bool.noConfusion h

theorem quad_hit_material (qd : Quad) (ray : Ray) (tI : Interval)
    (record : HitRecord) :
    (Quad.hit qd ray tI record).1 = true →
      ((Quad.hit qd ray tI record).2).material.isSome = true := by
  simp only [Quad.hit]
  repeat' split
  all_goals first
    | (intro h; exact Bool.noConfusion h)
    | (intro _; rfl)

theorem cm_hit_frame (F : FOracles) (cm : ConstantMedium) (lnU : ℚ)
    (ray : Ray) (tI : Interval) (record : HitRecord) :
    (ConstantMedium.hit F cm lnU ray tI record).1 = false →
      (ConstantMedium.hit F cm lnU ray tI record).2 = record := by
  simp only [ConstantMedium.hit]
  repeat' split
  all_goals first
    | (intro _; rfl)
    | (intro h; exact Bool.noConfusion h)

theorem cm_hit_material (F : FOracles) (cm : ConstantMedium) (lnU : ℚ)
    (ray : Ray) (tI : Interval) (record : HitRecord) :
    (ConstantMedium.hit F cm lnU ray tI record).1 = true →
      ((ConstantMedium.hit F cm lnU ray tI record).2).material.isSome = true := by
  simp only [ConstantMedium.hit]
  repeat' split
  all_goals first
    | (intro h; exact Bool.noConfusion h)
    | (intro _; rfl)

theorem scan_isHit_mono (ray : Ray) (m : ℚ) (L : List Hittable)
    (s : ScanState) (h : s.isHit = true) :
    (L.foldl (scanStep ray m) s).isHit = true := by
  induction L generalizing s with
  | nil => exact h
  | cons e L ih =>
      apply ih
      unfold scanStep
      rcases he : e.hit ray (Interval.new m s.closest) s.tmp with ⟨b, tmp⟩
      cases b
      · exact h
      · rfl

theorem scan_record_of_not_hit (ray : Ray) (m : ℚ) (L : List Hittable)
    (s : ScanState) :
    (L.foldl (scanStep ray m) s).isHit = false →
      (L.foldl (scanStep ray m) s).record = s.record ∧
      (L.foldl (scanStep ray m) s).closest = s.closest := by
  induction L generalizing s with
  | nil => intro _; exact ⟨rfl, rfl⟩
  | cons e L ih =>
      intro h
      simp only [List.foldl] at h ⊢
      rcases he : e.hit ray (Interval.new m s.closest) s.tmp with ⟨b, tmp⟩
      cases b
      · have hstep : scanStep ray m s e =
            ⟨s.isHit, s.closest, tmp, s.record⟩ := by
          unfold scanStep
          rw [he]
        rw [hstep] at h ⊢
        exact ih _ h
      · have hstep : scanStep ray m s e = ⟨true, tmp.t, tmp, tmp⟩ := by
          unfold scanStep
          rw [he]
        rw [hstep] at h
        have := scan_isHit_mono ray m L ⟨true, tmp.t, tmp, tmp⟩ rfl
        rw [h] at this
        cases this

theorem entityList_hit_frame (el : EntityList) (ray : Ray) (tI : Interval)
    (record : HitRecord) :
    (el.hit ray tI record).1 = false → (el.hit ray tI record).2 = record := by
  intro h
  unfold EntityList.hit at *
  exact (scan_record_of_not_hit ray tI.min el.list _ h).1

theorem scan_material (ray : Ray) (m : ℚ) (L : List Hittable) (s : ScanState)
    (hmat : ∀ e ∈ L, MatOK e)
    (hs : s.isHit = true → s.record.material.isSome = true) :
    (L.foldl (scanStep ray m) s).isHit = true →
      ((L.foldl (scanStep ray m) s).record).material.isSome = true := by
  induction L generalizing s with
  | nil => exact hs
  | cons e L ih =>
      simp only [List.foldl]
      apply ih _ (fun f hf => hmat f (List.mem_cons_of_mem e hf))
      unfold scanStep
      rcases he : e.hit ray (Interval.new m s.closest) s.tmp with ⟨b, tmp⟩
      cases b
      · exact hs
      · intro _
        have := hmat e (List.mem_cons_self e L) ray
          (Interval.new m s.closest) s.tmp (by rw [he])
        rw [he] at this
        exact this

theorem entityList_hit_material (el : EntityList) (ray : Ray) (tI : Interval)
    (record : HitRecord) (hmat : ∀ e ∈ el.list, MatOK e) :
    (el.hit ray tI record).1 = true →
      ((el.hit ray tI record).2).material.isSome = true := by
  intro h
  unfold EntityList.hit at *
  exact scan_material ray tI.min el.list _ hmat (by intro hfalse; cases hfalse) h

theorem bvh_hit_frame (T : BVH) (hf : ∀ e ∈ T.leaves, FrameOK e) (ray : Ray)
    (tI : Interval) (record : HitRecord) :
    (T.hit ray tI record).1 = false → (T.hit ray tI record).2 = record := by
  induction T generalizing tI record with
  | leaf e b =>
      have hfe : FrameOK e := hf e (by simp [BVH.leaves])
      simp only [BVH.hit]
      split
      · intro _
        rfl
      · exact hfe ray tI record
  | branch l r b ihl ihr =>
      have hfl : ∀ e ∈ l.leaves, FrameOK e := fun e he =>
        hf e (by simp [BVH.leaves, he])
      have hfr : ∀ e ∈ r.leaves, FrameOK e := fun e he =>
        hf e (by simp [BVH.leaves, he])
      simp only [BVH.hit]
      split
      · intro _
        rfl
      · rcases hL : l.hit ray tI record with ⟨bl, rec1⟩
        rcases hR : r.hit ray
            (Interval.new tI.min (if bl then rec1.t else tI.max)) rec1
          with ⟨br, rec2⟩
        simp only [hL, hR]
        have h1 : bl = false → rec1 = record := by
          intro hbl
          have h3 := ihl hfl tI record
          rw [hL] at h3
          exact h3 hbl
        have h2 : br = false → rec2 = rec1 := by
          intro hbr
          have h3 := ihr hfr
            (Interval.new tI.min (if bl then rec1.t else tI.max)) rec1
          rw [hR] at h3
          exact h3 hbr
        intro h
        rcases Bool.or_eq_false_iff.mp h with ⟨hbl, hbr⟩
        rw [h2 hbr, h1 hbl]

theorem bvh_hit_material (T : BVH) (hmat : ∀ e ∈ T.leaves, MatOK e)
    (hf : ∀ e ∈ T.leaves, FrameOK e) (ray : Ray) (tI : Interval)
    (record : HitRecord) :
    (T.hit ray tI record).1 = true →
      ((T.hit ray tI record).2).material.isSome = true := by
  induction T generalizing tI record with
  | leaf e b =>
      have hme : MatOK e := hmat e (by simp [BVH.leaves])
      simp only [BVH.hit]
      split
      · intro h
        simp at h
      · exact hme ray tI record
  | branch l r b ihl ihr =>
      have hml : ∀ e ∈ l.leaves, MatOK e := fun e he =>
        hmat e (by simp [BVH.leaves, he])
      have hmr : ∀ e ∈ r.leaves, MatOK e := fun e he =>
        hmat e (by simp [BVH.leaves, he])
      have hfl : ∀ e ∈ l.leaves, FrameOK e := fun e he =>
        hf e (by simp [BVH.leaves, he])
      have hfr : ∀ e ∈ r.leaves, FrameOK e := fun e he =>
        hf e (by simp [BVH.leaves, he])
      simp only [BVH.hit]
      split
      · intro h
        simp at h
      · rcases hL : l.hit ray tI record with ⟨bl, rec1⟩
        rcases hR : r.hit ray
            (Interval.new tI.min (if bl then rec1.t else tI.max)) rec1
          with ⟨br, rec2⟩
        simp only [hL, hR]
        have h3r := ihr hmr hfr
          (Interval.new tI.min (if bl then rec1.t else tI.max)) rec1
        rw [hR] at h3r
        have h3l := ihl hml hfl tI record
        rw [hL] at h3l
        have hframe2 : br = false → rec2 = rec1 := by
          intro hbr
          have h4 := bvh_hit_frame r hfr ray
            (Interval.new tI.min (if bl then rec1.t else tI.max)) rec1
          rw [hR] at h4
          exact h4 hbr
        intro htrue
        cases br
        · cases bl
          · exact Bool.noConfusion htrue
          · rw [hframe2 rfl]
            exact h3l rfl
        · exact h3r rfl

/-- Claim C8: every successful hit sets the record's material: Sphere, Quad
and ConstantMedium set it unconditionally on the true path; EntityList
propagates it from its members, and the BVH from its leaf primitives (whose
misses must also leave the threaded record alone).  Hence a record produced
by a successful hit query always has `material.isSome`, and the integrator's
fatal missing-material branch cannot fire on it. -/
theorem c8_material_always_set :
    (∀ (F : FOracles) (s : Sphere), MatOK (s.toHittable F)) ∧
    (∀ qd : Quad, MatOK qd.toHittable) ∧
    (∀ (F : FOracles) (cm : ConstantMedium) (lnU : ℚ),
      MatOK (cm.toHittable F lnU)) ∧
    (∀ (el : EntityList) (ray : Ray) (tI : Interval) (record : HitRecord),
      (∀ e ∈ el.list, MatOK e) → (el.hit ray tI record).1 = true →
        ((el.hit ray tI record).2).material.isSome = true) ∧
    (∀ (T : BVH) (ray : Ray) (tI : Interval) (record : HitRecord),
      (∀ e ∈ T.leaves, MatOK e) → (∀ e ∈ T.leaves, FrameOK e) →
      (T.hit ray tI record).1 = true →
        ((T.hit ray tI record).2).material.isSome = true) := by
  refine ⟨?_, ?_, ?_, ?_, ?_⟩
  · intro F s ray tI record
    exact sphere_hit_material F s ray tI record
  · intro qd ray tI record
    exact quad_hit_material qd ray tI record
  · intro F cm lnU ray tI record
    exact cm_hit_material F cm lnU ray tI record
  · intro el ray tI record hm
    exact entityList_hit_material el ray tI record hm
  · intro T ray tI record hm hf
    exact bvh_hit_material T hm hf ray tI record

/-- Witness for C8: concrete successful hits of a sphere, a quad, the
two-quad entity list and a one-leaf BVH all carry a material. -/
theorem c8_material_always_set_witness :
    ((Sphere.hit ratOracles sphere01 sphRay (Interval.new (1/1000) 100)
        HitRecord.new).2).material.isSome = true ∧
    ((Quad.hit quadA tieRay tieInterval HitRecord.new).2).material.isSome = true ∧
    ((EntityList.hit tieEL tieRay tieInterval
        HitRecord.new).2).material.isSome = true ∧
    ((BVH.hit leafA tieRay tieInterval HitRecord.new).2).material.isSome = true := by
  refine ⟨?_, ?_, ?_, ?_⟩
  · exact c8_material_always_set.1 ratOracles sphere01 sphRay
      (Interval.new (1/1000) 100) HitRecord.new (by with_unfolding_all decide)
  · exact c8_material_always_set.2.1 quadA tieRay tieInterval HitRecord.new
      (by with_unfolding_all decide)
  · refine c8_material_always_set.2.2.2.1 tieEL tieRay tieInterval
      HitRecord.new ?_ (by with_unfolding_all decide)
    intro e he
    have hlist : tieEL.list = [hitableA, hitableB] := rfl
    rw [hlist] at he
    simp only [List.mem_cons, List.not_mem_nil, or_false] at he
    rcases he with rfl | rfl
    · exact c8_material_always_set.2.1 quadA
    · exact c8_material_always_set.2.1 quadB
  · refine c8_material_always_set.2.2.2.2 leafA tieRay tieInterval
      HitRecord.new ?_ ?_ (by with_unfolding_all decide)
    · intro e he
      simp only [leafA, BVH.leaves, List.mem_singleton] at he
      subst he
      exact c8_material_always_set.2.1 quadA
    · intro e he
      simp only [leafA, BVH.leaves, List.mem_singleton] at he
      subst he
      intro ray tI record
      exact quad_hit_frame quadA ray tI record

/-- Claim C10: a hit method returning false leaves the caller's record
completely unchanged: Sphere, Quad, ConstantMedium unconditionally; the
EntityList scan never writes the caller's record unless some member hit; the
BVH whenever its leaf primitives obey the same frame discipline. -/
theorem c10_miss_leaves_record_unchanged :
    (∀ (F : FOracles) (s : Sphere), FrameOK (s.toHittable F)) ∧
    (∀ qd : Quad, FrameOK qd.toHittable) ∧
    (∀ (F : FOracles) (cm : ConstantMedium) (lnU : ℚ),
      FrameOK (cm.toHittable F lnU)) ∧
    (∀ (el : EntityList) (ray : Ray) (tI : Interval) (record : HitRecord),
      (el.hit ray tI record).1 = false → (el.hit ray tI record).2 = record) ∧
    (∀ T : BVH, (∀ e ∈ T.leaves, FrameOK e) →
      ∀ (ray : Ray) (tI : Interval) (record : HitRecord),
        (T.hit ray tI record).1 = false → (T.hit ray tI record).2 = record) := by
  refine ⟨?_, ?_, ?_, ?_, ?_⟩
  · intro F s ray tI record
    exact sphere_hit_frame F s ray tI record
  · intro qd ray tI record
    exact quad_hit_frame qd ray tI record
  · intro F cm lnU ray tI record
    exact cm_hit_frame F cm lnU ray tI record
  · intro el ray tI record
    exact entityList_hit_frame el ray tI record
  · intro T hf ray tI record
    exact bvh_hit_frame T hf ray tI record

/-- Witness for C10: concrete misses of a sphere, a quad, the two-quad list
and a one-leaf BVH leave a nontrivial input record exactly as it was. -/
theorem c10_miss_leaves_record_unchanged_witness :
    (Sphere.hit ratOracles sphere01 farRay (Interval.new (1/1000) 100)
      recA).2 = recA ∧
    (Quad.hit quadA rayMiss tieInterval recA).2 = recA ∧
    (EntityList.hit tieEL farRay tieInterval recA).2 = recA ∧
    (BVH.hit leafA rayMiss tieInterval recA).2 = recA := by
  refine ⟨?_, ?_, ?_, ?_⟩
  · exact c10_miss_leaves_record_unchanged.1 ratOracles sphere01 farRay
      (Interval.new (1/1000) 100) recA (by with_unfolding_all decide)
  · exact c10_miss_leaves_record_unchanged.2.1 quadA rayMiss tieInterval recA
      (by with_unfolding_all decide)
  · exact c10_miss_leaves_record_unchanged.2.2.2.1 tieEL farRay tieInterval
      recA (by with_unfolding_all decide)
  · refine c10_miss_leaves_record_unchanged.2.2.2.2 leafA ?_ rayMiss
      tieInterval recA (by with_unfolding_all decide)
    intro e he
    simp only [leafA, BVH.leaves, List.mem_singleton] at he
    subst he
    intro ray tI record
    exact quad_hit_frame quadA ray tI record

theorem EF.lt_nan_right (x : EF) : EF.lt x .nan = false := by cases x <;> rfl

theorem EF.lt_nan_left (x : EF) : EF.lt .nan x = false := by cases x <;> rfl

theorem EF.lt_ninf_right (x : EF) : EF.lt x .ninf = false := by cases x <;> rfl

theorem EF.lt_pinf_left (x : EF) : EF.lt .pinf x = false := by cases x <;> rfl

theorem slab_min_fin (a x : ℚ) :
    (if EF.lt (.fin a) (.fin x) then EF.fin x else .fin a) = .fin (Max.max a x) := by
  by_cases h : a < x
  · simp [EF.lt, h, max_eq_right h.le]
  · simp [EF.lt, h, max_eq_left (not_lt.mp h)]

theorem slab_max_fin (b x : ℚ) :
    (if EF.lt (.fin x) (.fin b) then EF.fin x else .fin b) = .fin (Min.min b x) := by
  by_cases h : x < b
  · simp [EF.lt, h, min_eq_right h.le]
  · simp [EF.lt, h, min_eq_left (not_lt.mp h)]

theorem slabT_ne (bound o d : ℚ) (hd : d ≠ 0) :
    slabT bound o d = .fin ((bound - o) / d) := by
  simp only [slabT, EF.div, if_neg hd, EF.mul, mul_one_div]

theorem slabT_zero (bound o : ℚ) :
    slabT bound o 0 =
      if 0 < bound - o then .pinf else if bound - o < 0 then .ninf else .nan := by
  have hdiv : EF.div (.fin 1) (.fin 0) = .pinf := by
    simp [EF.div]
  simp only [slabT, hdiv, EF.mul]

theorem slabAxis_ne_zero (axMin axMax o d : ℚ) (hd : d ≠ 0) (a b : ℚ) :
    slabAxis axMin axMax o d ⟨.fin a, .fin b⟩ =
      ⟨.fin (Max.max a (loSlab axMin axMax o d)),
       .fin (Min.min b (hiSlab axMin axMax o d))⟩ := by
  simp only [slabAxis, loSlab, hiSlab, slabT_ne _ _ _ hd]
  set p := (axMin - o) / d
  set q := (axMax - o) / d
  by_cases hpq : p < q
  · rw [if_pos (by simp [EF.lt, hpq])]
    rw [min_eq_left hpq.le, max_eq_right hpq.le, slab_min_fin, slab_max_fin]
  · have hqp : q ≤ p := not_lt.mp hpq
    rw [if_neg (by simp [EF.lt, hpq])]
    rw [min_eq_right hqp, max_eq_left hqp, slab_min_fin, slab_max_fin]

theorem slabAxis_zero_pass (axMin axMax o : ℚ) (hp : axisPass0 axMin axMax o)
    (s : EInterval) : slabAxis axMin axMax o 0 s = s := by
  obtain ⟨mn, mx⟩ := s
  simp only [slabAxis, slabT_zero]
  rcases hp with ⟨h1, h2⟩ | ⟨h1, h2⟩ | ⟨h1, h2⟩ | ⟨h1, h2⟩
  · rw [show (if 0 < axMin - o then EF.pinf else
        if axMin - o < 0 then EF.ninf else EF.nan) = EF.ninf by
          rw [if_neg (by linarith), if_pos (by linarith)]]
    rw [show (if 0 < axMax - o then EF.pinf else
        if axMax - o < 0 then EF.ninf else EF.nan) = EF.pinf by
          rw [if_pos (by linarith)]]
    simp [EF.lt, EF.lt_ninf_right, EF.lt_pinf_left]
  · rw [show (if 0 < axMin - o then EF.pinf else
        if axMin - o < 0 then EF.ninf else EF.nan) = EF.pinf by
          rw [if_pos (by linarith)]]
    rw [show (if 0 < axMax - o then EF.pinf else
        if axMax - o < 0 then EF.ninf else EF.nan) = EF.ninf by
          rw [if_neg (by linarith), if_pos (by linarith)]]
    simp [EF.lt, EF.lt_ninf_right, EF.lt_pinf_left]
  · rw [show (if 0 < axMin - o then EF.pinf else
        if axMin - o < 0 then EF.ninf else EF.nan) = EF.nan by
          rw [if_neg (by simp [h1]), if_neg (by simp [h1])]]
    rcases lt_or_eq_of_le h2 with h2' | h2'
    · rw [show (if 0 < axMax - o then EF.pinf else
          if axMax - o < 0 then EF.ninf else EF.nan) = EF.ninf by
            rw [if_neg (by linarith), if_pos (by linarith)]]
      simp [EF.lt, EF.lt_nan_left, EF.lt_nan_right, EF.lt_ninf_right]
    · rw [show (if 0 < axMax - o then EF.pinf else
          if axMax - o < 0 then EF.ninf else EF.nan) = EF.nan by
            rw [if_neg (by linarith), if_neg (by linarith)]]
      simp [EF.lt, EF.lt_nan_left, EF.lt_nan_right]
  · rw [show (if 0 < axMax - o then EF.pinf else
        if axMax - o < 0 then EF.ninf else EF.nan) = EF.nan by
          rw [if_neg (by simp [h1]), if_neg (by simp [h1])]]
    rcases lt_or_eq_of_le h2 with h2' | h2'
    · rw [show (if 0 < axMin - o then EF.pinf else
          if axMin - o < 0 then EF.ninf else EF.nan) = EF.pinf by
            rw [if_pos (by linarith)]]
      simp [EF.lt, EF.lt_nan_left, EF.lt_nan_right, EF.lt_pinf_left]
    · rw [show (if 0 < axMin - o then EF.pinf else
          if axMin - o < 0 then EF.ninf else EF.nan) = EF.nan by
            rw [if_neg (by linarith), if_neg (by linarith)]]
      simp [EF.lt, EF.lt_nan_left, EF.lt_nan_right]

theorem slabAxis_zero_fail (axMin axMax o : ℚ) (hp : ¬ axisPass0 axMin axMax o)
    (a b : ℚ) :
    EF.le (slabAxis axMin axMax o 0 ⟨.fin a, .fin b⟩).max
          (slabAxis axMin axMax o 0 ⟨.fin a, .fin b⟩).min = true := by
  simp only [slabAxis, slabT_zero]
  rcases lt_trichotomy axMin o with h1 | h1 | h1 <;>
    rcases lt_trichotomy axMax o with h2 | h2 | h2
  · rw [show (if 0 < axMin - o then EF.pinf else
        if axMin - o < 0 then EF.ninf else EF.nan) = EF.ninf by
          rw [if_neg (by linarith), if_pos (by linarith)]]
    rw [show (if 0 < axMax - o then EF.pinf else
        if axMax - o < 0 then EF.ninf else EF.nan) = EF.ninf by
          rw [if_neg (by linarith), if_pos (by linarith)]]
    simp [EF.lt, EF.le, EF.lt_ninf_right]
  · rw [show (if 0 < axMin - o then EF.pinf else
        if axMin - o < 0 then EF.ninf else EF.nan) = EF.ninf by
          rw [if_neg (by linarith), if_pos (by linarith)]]
    rw [show (if 0 < axMax - o then EF.pinf else
        if axMax - o < 0 then EF.ninf else EF.nan) = EF.nan by
          rw [if_neg (by simp [h2]), if_neg (by simp [h2])]]
    simp [EF.lt, EF.le, EF.lt_ninf_right, EF.lt_nan_left]
  · exact absurd (Or.inl ⟨h1, h2⟩) hp
  · exact absurd (Or.inr (Or.inr (Or.inl ⟨h1.symm, h2.le⟩))) hp
  · exact absurd (Or.inr (Or.inr (Or.inl ⟨h1.symm, h2.le⟩))) hp
  · rw [show (if 0 < axMin - o then EF.pinf else
        if axMin - o < 0 then EF.ninf else EF.nan) = EF.nan by
          rw [if_neg (by simp [h1]), if_neg (by simp [h1])]]
    rw [show (if 0 < axMax - o then EF.pinf else
        if axMax - o < 0 then EF.ninf else EF.nan) = EF.pinf by
          rw [if_pos (by linarith)]]
    simp [EF.lt, EF.le, EF.lt_nan_left, EF.lt_nan_right, EF.lt_pinf_left]
  · exact absurd (Or.inr (Or.inl ⟨h2, h1⟩)) hp
  · exact absurd (Or.inr (Or.inr (Or.inr ⟨h2.symm, h1.le⟩))) hp
  · rw [show (if 0 < axMin - o then EF.pinf else
        if axMin - o < 0 then EF.ninf else EF.nan) = EF.pinf by
          rw [if_pos (by linarith)]]
    rw [show (if 0 < axMax - o then EF.pinf else
        if axMax - o < 0 then EF.ninf else EF.nan) = EF.pinf by
          rw [if_pos (by linarith)]]
    simp [EF.lt, EF.le, EF.lt_pinf_left]

theorem aabbHit_eq_fold (bb : AABB) (ray : Ray) (rayT : EInterval) :
    AABB.hit bb ray rayT = axisFold (axesOf bb ray) rayT := rfl

theorem axEff_shrink (axMin axMax o d : ℚ) (s : ℚ × ℚ) :
    s.1 ≤ (axEff axMin axMax o d s).1 ∧ (axEff axMin axMax o d s).2 ≤ s.2 := by
  unfold axEff
  by_cases hd : d = 0
  · simp only [if_pos hd]
    exact ⟨le_refl _, le_refl _⟩
  · simp only [if_neg hd]
    exact ⟨le_max_left _ _, min_le_left _ _⟩

theorem effFold_shrink (l : List AxP) (s : ℚ × ℚ) :
    s.1 ≤ (effFold l s).1 ∧ (effFold l s).2 ≤ s.2 := by
  induction l generalizing s with
  | nil => exact ⟨le_refl _, le_refl _⟩
  | cons a l ih =>
      have h1 := axEff_shrink a.axMin a.axMax a.o a.d s
      have h2 := ih (axEff a.axMin a.axMax a.o a.d s)
      exact ⟨h1.1.trans h2.1, h2.2.trans h1.2⟩

theorem axisFold_iff (l : List AxP) (m M : ℚ) (hmM : m < M) :
    axisFold l ⟨.fin m, .fin M⟩ = true ↔
      ((∀ a ∈ l, axOK a.axMin a.axMax a.o a.d) ∧
       (effFold l (m, M)).1 < (effFold l (m, M)).2) := by
  induction l generalizing m M with
  | nil => simp [axisFold, effFold, hmM]
  | cons a l ih =>
      rcases eq_or_ne a.d 0 with hd | hd
      · by_cases hpass : axisPass0 a.axMin a.axMax a.o
        · have hstep : slabAxis a.axMin a.axMax a.o a.d ⟨.fin m, .fin M⟩ =
              ⟨.fin m, .fin M⟩ := by
            rw [hd]
            exact slabAxis_zero_pass _ _ _ hpass _
          have heff : axEff a.axMin a.axMax a.o a.d (m, M) = (m, M) := by
            rw [hd]
            simp [axEff]
          simp only [axisFold, hstep]
          rw [if_neg (by simp only [EF.le, decide_eq_true_eq]; exact not_le.mpr hmM)]
          rw [ih m M hmM]
          simp only [effFold, heff]
          constructor
          · rintro ⟨hall, hs⟩
            refine ⟨fun x hx => ?_, hs⟩
            rcases List.mem_cons.mp hx with rfl | hx'
            · exact Or.inr hpass
            · exact hall x hx'
          · rintro ⟨hall, hs⟩
            exact ⟨fun x hx => hall x (List.mem_cons_of_mem a hx), hs⟩
        · have hgate := slabAxis_zero_fail a.axMin a.axMax a.o hpass m M
          simp only [axisFold]
          rw [hd, if_pos hgate]
          refine iff_of_false (by simp) ?_
          rintro ⟨hall, -⟩
          have hx := hall a (List.mem_cons_self a l)
          unfold axOK at hx
          rcases hx with h | h
          · exact h hd
          · exact hpass h
      · have hstep := slabAxis_ne_zero a.axMin a.axMax a.o a.d hd m M
        set m1 := Max.max m (loSlab a.axMin a.axMax a.o a.d) with hm1
        set M1 := Min.min M (hiSlab a.axMin a.axMax a.o a.d) with hM1
        have heff : axEff a.axMin a.axMax a.o a.d (m, M) = (m1, M1) := by
          simp [axEff, hd, hm1, hM1]
        simp only [axisFold, hstep]
        by_cases hg : M1 ≤ m1
        · rw [if_pos (by simp only [EF.le, decide_eq_true_eq]; exact hg)]
          refine iff_of_false (by simp) ?_
          rintro ⟨hall, hs⟩
          simp only [effFold, heff] at hs
          have hs2 := effFold_shrink l (m1, M1)
          have : m1 < M1 := lt_of_le_of_lt hs2.1 (lt_of_lt_of_le hs hs2.2)
          exact absurd this (not_lt.mpr hg)
        · rw [if_neg (by simp only [EF.le, decide_eq_true_eq]; exact hg)]
          have hm1M1 : m1 < M1 := not_le.mp hg
          rw [ih m1 M1 hm1M1]
          simp only [effFold, heff]
          constructor
          · rintro ⟨hall, hs⟩
            refine ⟨fun x hx => ?_, hs⟩
            rcases List.mem_cons.mp hx with rfl | hx'
            · exact Or.inl hd
            · exact hall x hx'
          · rintro ⟨hall, hs⟩
            exact ⟨fun x hx => hall x (List.mem_cons_of_mem a hx), hs⟩

theorem axisFold_cons_iff (a : AxP) (l : List AxP) (m M : ℚ) :
    axisFold (a :: l) ⟨.fin m, .fin M⟩ = true ↔
      ((∀ x ∈ a :: l, axOK x.axMin x.axMax x.o x.d) ∧
       (effFold (a :: l) (m, M)).1 < (effFold (a :: l) (m, M)).2) := by
  by_cases hmM : m < M
  · exact axisFold_iff (a :: l) m M hmM
  · refine iff_of_false ?_ ?_
    · rcases eq_or_ne a.d 0 with hd | hd
      · by_cases hpass : axisPass0 a.axMin a.axMax a.o
        · have hstep : slabAxis a.axMin a.axMax a.o a.d ⟨.fin m, .fin M⟩ =
              ⟨.fin m, .fin M⟩ := by
            rw [hd]
            exact slabAxis_zero_pass _ _ _ hpass _
          simp only [axisFold, hstep]
          rw [if_pos (by simp only [EF.le, decide_eq_true_eq]; exact not_lt.mp hmM)]
          simp
        · have hgate := slabAxis_zero_fail a.axMin a.axMax a.o hpass m M
          simp only [axisFold]
          rw [hd, if_pos hgate]
          simp
      · have hstep := slabAxis_ne_zero a.axMin a.axMax a.o a.d hd m M
        simp only [axisFold, hstep]
        rw [if_pos (by
          simp only [EF.le, decide_eq_true_eq]
          calc Min.min M (hiSlab a.axMin a.axMax a.o a.d) ≤ M := min_le_left _ _
            _ ≤ m := not_lt.mp hmM
            _ ≤ Max.max m (loSlab a.axMin a.axMax a.o a.d) := le_max_left _ _)]
        simp
    · rintro ⟨-, hs⟩
      have hs2 := effFold_shrink (a :: l) (m, M)
      have : m < M := lt_of_le_of_lt hs2.1 (lt_of_lt_of_le hs hs2.2)
      exact hmM this

theorem loSlab_mono (axMin axMax axMin' axMax' o d : ℚ) (hd : d ≠ 0)
    (h1 : axMin' ≤ axMin) (h2 : axMax ≤ axMax') (hv : axMin < axMax) :
    loSlab axMin' axMax' o d ≤ loSlab axMin axMax o d ∧
    hiSlab axMin axMax o d ≤ hiSlab axMin' axMax' o d := by
  rcases lt_or_gt_of_ne hd with hneg | hpos
  · have key : ∀ x y : ℚ, x ≤ y → (y - o) / d ≤ (x - o) / d := by
      intro x y hxy
      have hsub : x - o ≤ y - o := by linarith
      calc (y - o) / d = (y - o) * d⁻¹ := div_eq_mul_inv _ _
        _ ≤ (x - o) * d⁻¹ := mul_le_mul_of_nonpos_right hsub (inv_nonpos.mpr hneg.le)
        _ = (x - o) / d := (div_eq_mul_inv _ _).symm
    constructor
    · rw [loSlab, loSlab, min_eq_right (key _ _ hv.le)]
      exact le_trans (min_le_right _ _) (key _ _ h2)
    · rw [hiSlab, hiSlab, max_eq_left (key _ _ hv.le)]
      exact le_trans (key _ _ h1) (le_max_left _ _)
  · have key : ∀ x y : ℚ, x ≤ y → (x - o) / d ≤ (y - o) / d := by
      intro x y hxy
      have hsub : x - o ≤ y - o := by linarith
      calc (x - o) / d = (x - o) * d⁻¹ := div_eq_mul_inv _ _
        _ ≤ (y - o) * d⁻¹ := mul_le_mul_of_nonneg_right hsub (inv_nonneg.mpr hpos.le)
        _ = (y - o) / d := (div_eq_mul_inv _ _).symm
    constructor
    · rw [loSlab, loSlab, min_eq_left (key _ _ hv.le)]
      exact le_trans (min_le_left _ _) (key _ _ h1)
    · rw [hiSlab, hiSlab, max_eq_right (key _ _ hv.le)]
      exact le_trans (key _ _ h2) (le_max_right _ _)

theorem axEff_mono (axMin axMax axMin' axMax' o d : ℚ)
    (h1 : axMin' ≤ axMin) (h2 : axMax ≤ axMax') (hv : axMin < axMax)
    (s t : ℚ × ℚ) (ht1 : t.1 ≤ s.1) (ht2 : s.2 ≤ t.2) :
    (axEff axMin' axMax' o d t).1 ≤ (axEff axMin axMax o d s).1 ∧
    (axEff axMin axMax o d s).2 ≤ (axEff axMin' axMax' o d t).2 := by
  by_cases hd : d = 0
  · simp only [axEff, if_pos hd]
    exact ⟨ht1, ht2⟩
  · simp only [axEff, if_neg hd]
    obtain ⟨hlo, hhi⟩ := loSlab_mono axMin axMax axMin' axMax' o d hd h1 h2 hv
    exact ⟨max_le_max ht1 hlo, min_le_min ht2 hhi⟩

theorem axisPass0_mono (axMin axMax axMin' axMax' o : ℚ)
    (h1 : axMin' ≤ axMin) (h2 : axMax ≤ axMax') (hv : axMin < axMax)
    (hp : axisPass0 axMin axMax o) : axisPass0 axMin' axMax' o := by
  rcases hp with ⟨ha, hb⟩ | ⟨ha, hb⟩ | ⟨ha, hb⟩ | ⟨ha, hb⟩
  · exact Or.inl ⟨by linarith, by linarith⟩
  · exact absurd hv (by linarith)
  · exact absurd hv (by linarith [hb, ha.le])
  · exact absurd hv (by linarith [hb, ha.ge])

theorem aabbHit_mono (small big : AABB) (ray : Ray) (m M : ℚ)
    (hsub : small.sub big) (hval : small.strictValid)
    (h : AABB.hit small ray ⟨.fin m, .fin M⟩ = true) :
    AABB.hit big ray ⟨.fin m, .fin M⟩ = true := by
  obtain ⟨hsx, hsy, hsz⟩ := hsub
  obtain ⟨hvx, hvy, hvz⟩ := hval
  rw [aabbHit_eq_fold] at h ⊢
  rw [show axesOf small ray =
      ⟨small.x.min, small.x.max, ray.origin.x, ray.direction.x⟩ ::
      [⟨small.y.min, small.y.max, ray.origin.y, ray.direction.y⟩,
       ⟨small.z.min, small.z.max, ray.origin.z, ray.direction.z⟩] from rfl] at h
  rw [show axesOf big ray =
      ⟨big.x.min, big.x.max, ray.origin.x, ray.direction.x⟩ ::
      [⟨big.y.min, big.y.max, ray.origin.y, ray.direction.y⟩,
       ⟨big.z.min, big.z.max, ray.origin.z, ray.direction.z⟩] from rfl]
  rw [axisFold_cons_iff] at h
  rw [axisFold_cons_iff]
  obtain ⟨hOK, hstrict⟩ := h
  have hOKx := hOK ⟨small.x.min, small.x.max, ray.origin.x, ray.direction.x⟩
    (by simp)
  have hOKy := hOK ⟨small.y.min, small.y.max, ray.origin.y, ray.direction.y⟩
    (by simp)
  have hOKz := hOK ⟨small.z.min, small.z.max, ray.origin.z, ray.direction.z⟩
    (by simp)
  constructor
  · intro x hx
    simp only [List.mem_cons, List.not_mem_nil, or_false] at hx
    rcases hx with rfl | rfl | rfl
    · rcases hOKx with hd | hp
      · exact Or.inl hd
      · exact Or.inr (axisPass0_mono _ _ _ _ _ hsx.1 hsx.2 hvx hp)
    · rcases hOKy with hd | hp
      · exact Or.inl hd
      · exact Or.inr (axisPass0_mono _ _ _ _ _ hsy.1 hsy.2 hvy hp)
    · rcases hOKz with hd | hp
      · exact Or.inl hd
      · exact Or.inr (axisPass0_mono _ _ _ _ _ hsz.1 hsz.2 hvz hp)
  · simp only [effFold] at hstrict ⊢
    have hx := axEff_mono small.x.min small.x.max big.x.min big.x.max
      ray.origin.x ray.direction.x hsx.1 hsx.2 hvx (m, M) (m, M)
      (le_refl _) (le_refl _)
    have hy := axEff_mono small.y.min small.y.max big.y.min big.y.max
      ray.origin.y ray.direction.y hsy.1 hsy.2 hvy _ _ hx.1 hx.2
    have hz := axEff_mono small.z.min small.z.max big.z.min big.z.max
      ray.origin.z ray.direction.z hsz.1 hsz.2 hvz _ _ hy.1 hy.2
    exact lt_of_le_of_lt hz.1 (lt_of_lt_of_le hstrict hz.2)

theorem insertByKey_length (key : Hittable → ℚ) (e : Hittable)
    (l : List Hittable) : (insertByKey key e l).length = l.length + 1 := by
  induction l with
  | nil => rfl
  | cons f fs ih =>
      simp only [insertByKey]
      split
      · rfl
      · simp [ih]

theorem insertByKey_perm (key : Hittable → ℚ) (e : Hittable)
    (l : List Hittable) : (insertByKey key e l).Perm (e :: l) := by
  induction l with
  | nil => exact List.Perm.refl _
  | cons f fs ih =>
      simp only [insertByKey]
      split
      · exact List.Perm.refl _
      · exact (List.Perm.cons f ih).trans (List.Perm.swap e f fs)

theorem sortByKey_perm (key : Hittable → ℚ) (l : List Hittable) :
    (sortByKey key l).Perm l := by
  induction l with
  | nil => exact List.Perm.refl _
  | cons e es ih =>
      exact (insertByKey_perm key e (sortByKey key es)).trans (List.Perm.cons e ih)

theorem sortByKey_length (key : Hittable → ℚ) (l : List Hittable) :
    (sortByKey key l).length = l.length :=
  (sortByKey_perm key l).length_eq

theorem computeBvhF_ne_panicked : ∀ (fuel : ℕ) (l : List Hittable) (m : String),
    l ≠ [] → l.length ≤ fuel → computeBvhF fuel l = .panicked m → False := by
  intro fuel
  induction fuel with
  | zero =>
      intro l m hl hf hp
      rcases l with _ | ⟨e0, _ | ⟨e1, es⟩⟩
      · exact hl rfl
      · exact BuildResult.noConfusion hp
      · simp at hf
  | succ fuel ih =>
      intro l m hl hf hp
      rcases l with _ | ⟨e0, _ | ⟨e1, es⟩⟩
      · exact hl rfl
      · exact BuildResult.noConfusion hp
      · simp only [computeBvhF] at hp
        simp only [List.length_cons] at hf
        split at hp
        · exact BuildResult.noConfusion hp
        · rename_i m' hL
          exact ih _ m'
            (by
              intro hnil
              have hlen := congrArg List.length hnil
              simp [List.length_take, sortByKey_length] at hlen
              omega)
            (by simp [List.length_take, sortByKey_length]; omega) hL
        · rename_i m' hR hx
          exact ih _ m'
            (by
              intro hnil
              have hlen := congrArg List.length hnil
              simp [List.length_drop, sortByKey_length] at hlen
              omega)
            (by simp [List.length_drop, sortByKey_length]; omega) hR

theorem computeBvhF_builds (fuel : ℕ) (l : List Hittable) (hl : l ≠ [])
    (hf : l.length ≤ fuel) : ∃ b, computeBvhF fuel l = .built b := by
  rcases hres : computeBvhF fuel l with m | b
  · exact absurd hres
      (fun h => computeBvhF_ne_panicked fuel l m hl hf h)
  · exact ⟨b, rfl⟩

theorem computeBvhF_leaves_perm : ∀ (fuel : ℕ) (l : List Hittable) (b : BVH),
    l.length ≤ fuel → computeBvhF fuel l = .built b → b.leaves.Perm l := by
  intro fuel
  induction fuel with
  | zero =>
      intro l b hf hb
      rcases l with _ | ⟨e0, _ | ⟨e1, es⟩⟩
      · exact BuildResult.noConfusion hb
      · have hb' : BVH.leaf e0 e0.aabb = b := by injection hb
        rw [← hb']
        exact List.Perm.refl _
      · simp at hf
  | succ fuel ih =>
      intro l b hf hb
      rcases l with _ | ⟨e0, _ | ⟨e1, es⟩⟩
      · exact BuildResult.noConfusion hb
      · have hb' : BVH.leaf e0 e0.aabb = b := by injection hb
        rw [← hb']
        exact List.Perm.refl _
      · simp only [computeBvhF] at hb
        simp only [List.length_cons] at hf
        split at hb
        · rename_i bl br hL hR
          have hb' : BVH.branch bl br (AABB.combine bl.bbox br.bbox) = b := by
            injection hb
          rw [← hb']
          have ihl := ih _ _
            (by simp [List.length_take, sortByKey_length]; omega) hL
          have ihr := ih _ _
            (by simp [List.length_drop, sortByKey_length]; omega) hR
          simp only [BVH.leaves]
          refine (ihl.append ihr).trans ?_
          rw [List.take_append_drop]
          exact sortByKey_perm _ _
        · exact BuildResult.noConfusion hb
        · exact BuildResult.noConfusion hb

theorem computeBvhF_conserv : ∀ (fuel : ℕ) (l : List Hittable) (b : BVH),
    l.length ≤ fuel → computeBvhF fuel l = .built b → Conserv b := by
  intro fuel
  induction fuel with
  | zero =>
      intro l b hf hb
      rcases l with _ | ⟨e0, _ | ⟨e1, es⟩⟩
      · exact BuildResult.noConfusion hb
      · have hb' : BVH.leaf e0 e0.aabb = b := by injection hb
        rw [← hb']
        exact AABB.boxSub_refl _
      · simp at hf
  | succ fuel ih =>
      intro l b hf hb
      rcases l with _ | ⟨e0, _ | ⟨e1, es⟩⟩
      · exact BuildResult.noConfusion hb
      · have hb' : BVH.leaf e0 e0.aabb = b := by injection hb
        rw [← hb']
        exact AABB.boxSub_refl _
      · simp only [computeBvhF] at hb
        simp only [List.length_cons] at hf
        split at hb
        · rename_i bl br hL hR
          have hb' : BVH.branch bl br (AABB.combine bl.bbox br.bbox) = b := by
            injection hb
          rw [← hb']
          refine ⟨?_, ?_, ?_, ?_⟩
          · exact ih _ _ (by simp [List.length_take, sortByKey_length]; omega) hL
          · exact ih _ _ (by simp [List.length_drop, sortByKey_length]; omega) hR
          · exact AABB.boxSub_combineL _ _
          · exact AABB.boxSub_combineR _ _
        · exact BuildResult.noConfusion hb
        · exact BuildResult.noConfusion hb

theorem conserv_leaf_sub (T : BVH) (hc : Conserv T) :
    ∀ e ∈ T.leaves, e.aabb.sub T.bbox := by
  induction T with
  | leaf e b =>
      intro x hx
      simp only [BVH.leaves, List.mem_singleton] at hx
      subst hx
      exact hc
  | branch l r b ihl ihr =>
      obtain ⟨hcl, hcr, hsl, hsr⟩ := hc
      intro x hx
      simp only [BVH.leaves, List.mem_append] at hx
      rcases hx with hx | hx
      · exact AABB.boxSub_trans (ihl hcl x hx) hsl
      · exact AABB.boxSub_trans (ihr hcr x hx) hsr

theorem acc_le (s : Bool) (t M : ℚ) (h : acc s t M = true) : t ≤ M := by
  unfold acc at h
  simp only [Bool.or_eq_true, Bool.and_eq_true, decide_eq_true_eq] at h
  rcases h with h | ⟨-, h⟩
  · exact h.le
  · exact h.le

theorem acc_mono (s : Bool) (t M M' : ℚ) (h : acc s t M = true) (hMM : M ≤ M') :
    acc s t M' = true := by
  unfold acc at h ⊢
  simp only [Bool.or_eq_true, Bool.and_eq_true, decide_eq_true_eq] at h ⊢
  rcases h with h | ⟨hs, h⟩
  · exact Or.inl (lt_of_lt_of_le h hMM)
  · subst h
    rcases lt_or_eq_of_le hMM with h' | h'
    · exact Or.inl h'
    · exact Or.inr ⟨hs, h'⟩

theorem acc_false_of (s : Bool) (t M : ℚ) (h1 : ¬ t < M) (h2 : t ≠ M) :
    acc s t M = false := by
  unfold acc
  simp [h1, h2]

theorem scanT_flag (ray : Ray) (m : ℚ) (L : List Hittable) (f : Bool) (M : ℚ) :
    scanT ray m L (f, M) =
      (f || (scanT ray m L (false, M)).1, (scanT ray m L (false, M)).2) := by
  induction L generalizing f M with
  | nil => simp [scanT]
  | cons e L ih =>
      simp only [scanT, List.foldl] at ih ⊢
      rcases he : e.hit ray (Interval.new m M) HitRecord.new with ⟨b, tmp⟩
      cases b
      · have h1 : ∀ g : Bool, scanTStep ray m (g, M) e = (g, M) := by
          intro g
          simp only [scanTStep]
          rw [he]
        rw [h1 f, h1 false]
        exact ih f M
      · have h1 : ∀ g : Bool, scanTStep ray m (g, M) e = (true, tmp.t) := by
          intro g
          simp only [scanTStep]
          rw [he]
        rw [h1 f, h1 false, ih true tmp.t]
        simp

theorem scanT_nohit (ray : Ray) (m : ℚ) (L : List Hittable) (M : ℚ) :
    (scanT ray m L (false, M)).1 = false → (scanT ray m L (false, M)).2 = M := by
  induction L generalizing M with
  | nil => intro _; rfl
  | cons e L ih =>
      simp only [scanT, List.foldl]
      rcases he : e.hit ray (Interval.new m M) HitRecord.new with ⟨b, tmp⟩
      cases b
      · have h1 : scanTStep ray m (false, M) e = (false, M) := by
          simp only [scanTStep]
          rw [he]
        rw [h1]
        exact ih M
      · have h1 : scanTStep ray m (false, M) e = (true, tmp.t) := by
          simp only [scanTStep]
          rw [he]
        rw [h1]
        intro h
        have hfl := scanT_flag ray m L true tmp.t
        simp only [scanT] at hfl
        rw [hfl] at h
        simp at h

theorem scan_proj (ray : Ray) (m : ℚ) (L : List Hittable)
    (hm : ∀ e ∈ L, ∃ p, Models ray m e p) :
    ∀ s : ScanState,
      ((L.foldl (scanStep ray m) s).isHit, (L.foldl (scanStep ray m) s).closest) =
        scanT ray m L (s.isHit, s.closest) := by
  induction L with
  | nil => intro s; rfl
  | cons e L ih =>
      intro s
      obtain ⟨p, hp⟩ := hm e (List.mem_cons_self e L)
      have ihL := ih (fun f hf => hm f (List.mem_cons_of_mem e hf))
      simp only [List.foldl, scanT] at ihL ⊢
      rcases hres : p.res with _ | ⟨t, hrec⟩
      · unfold Models at hp
        rw [hres] at hp
        have hstepS : scanStep ray m s e = ⟨s.isHit, s.closest, s.tmp, s.record⟩ := by
          unfold scanStep
          rw [hp s.closest s.tmp]
        have hstepT : scanTStep ray m (s.isHit, s.closest) e =
            (s.isHit, s.closest) := by
          simp only [scanTStep]
          rw [hp s.closest HitRecord.new]
        rw [hstepS, hstepT]
        exact ihL ⟨s.isHit, s.closest, s.tmp, s.record⟩
      · unfold Models at hp
        rw [hres] at hp
        obtain ⟨ht, hmt, hhit, hbx⟩ := hp
        by_cases hacc : acc p.strict t s.closest = true
        · have hstepS : scanStep ray m s e = ⟨true, hrec.t, hrec, hrec⟩ := by
            unfold scanStep
            rw [hhit s.closest s.tmp, if_pos hacc]
          have hstepT : scanTStep ray m (s.isHit, s.closest) e = (true, hrec.t) := by
            simp only [scanTStep]
            rw [hhit s.closest HitRecord.new, if_pos hacc]
          rw [hstepS, hstepT]
          exact ihL ⟨true, hrec.t, hrec, hrec⟩
        · have hstepS : scanStep ray m s e =
              ⟨s.isHit, s.closest, s.tmp, s.record⟩ := by
            unfold scanStep
            rw [hhit s.closest s.tmp, if_neg hacc]
          have hstepT : scanTStep ray m (s.isHit, s.closest) e =
              (s.isHit, s.closest) := by
            simp only [scanTStep]
            rw [hhit s.closest HitRecord.new, if_neg hacc]
          rw [hstepS, hstepT]
          exact ihL ⟨s.isHit, s.closest, s.tmp, s.record⟩

theorem scan_t_inv (ray : Ray) (m : ℚ) (L : List Hittable) (s : ScanState)
    (hs : s.isHit = true → s.record.t = s.closest) :
    (L.foldl (scanStep ray m) s).isHit = true →
      ((L.foldl (scanStep ray m) s).record).t =
        (L.foldl (scanStep ray m) s).closest := by
  induction L generalizing s with
  | nil => exact hs
  | cons e L ih =>
      simp only [List.foldl]
      apply ih
      unfold scanStep
      rcases he : e.hit ray (Interval.new m s.closest) s.tmp with ⟨b, tmp⟩
      cases b
      · exact hs
      · exact fun _ => rfl

theorem entityList_scan (el : EntityList) (ray : Ray) (tI : Interval)
    (record : HitRecord)
    (hm : ∀ e ∈ el.list, ∃ p, Models ray tI.min e p) :
    (el.hit ray tI record).1 = (scanT ray tI.min el.list (false, tI.max)).1 ∧
    ((el.hit ray tI record).1 = true →
      (el.hit ray tI record).2.t = (scanT ray tI.min el.list (false, tI.max)).2) := by
  have hproj := scan_proj ray tI.min el.list hm
    ⟨false, tI.max, HitRecord.new, record⟩
  simp only [EntityList.hit]
  constructor
  · exact congrArg Prod.fst hproj
  · intro h
    have ht := scan_t_inv ray tI.min el.list
      ⟨false, tI.max, HitRecord.new, record⟩ (fun hh => Bool.noConfusion hh) h
    rw [ht]
    exact congrArg Prod.snd hproj

theorem scanT_pruned (ray : Ray) (m : ℚ) (box : AABB) (L : List Hittable)
    (M : ℚ)
    (hbox : AABB.hit box ray ⟨.fin m, .fin M⟩ = false)
    (hm : ∀ e ∈ L, ∃ p, Models ray m e p)
    (hv : ∀ e ∈ L, e.aabb.strictValid)
    (hsub : ∀ e ∈ L, e.aabb.sub box) :
    scanT ray m L (false, M) = (false, M) := by
  induction L with
  | nil => rfl
  | cons e L ih =>
      obtain ⟨p, hp⟩ := hm e (List.mem_cons_self e L)
      simp only [scanT, List.foldl]
      have hstep : scanTStep ray m (false, M) e = (false, M) := by
        rcases hres : p.res with _ | ⟨t, hrec⟩
        · unfold Models at hp
          rw [hres] at hp
          simp only [scanTStep]
          rw [hp M HitRecord.new]
        · unfold Models at hp
          rw [hres] at hp
          obtain ⟨ht, hmt, hhit, hbx⟩ := hp
          by_cases hacc : acc p.strict t M = true
          · exfalso
            have h1 := hbx M hacc
            have h2 := aabbHit_mono e.aabb box ray m M
              (hsub e (List.mem_cons_self e L)) (hv e (List.mem_cons_self e L)) h1
            rw [h2] at hbox
            exact Bool.noConfusion hbox
          · simp only [scanTStep]
            rw [hhit M HitRecord.new, if_neg hacc]
      rw [hstep]
      exact ih (fun f hf => hm f (List.mem_cons_of_mem e hf))
        (fun f hf => hv f (List.mem_cons_of_mem e hf))
        (fun f hf => hsub f (List.mem_cons_of_mem e hf))

theorem scanTStep_comm (ray : Ray) (m : ℚ) (a b : Hittable)
    (hpa : ∃ p, Models ray m a p) (hpb : ∃ p, Models ray m b p) (s : Bool × ℚ) :
    scanTStep ray m (scanTStep ray m s a) b =
      scanTStep ray m (scanTStep ray m s b) a := by
  obtain ⟨pa, hpa⟩ := hpa
  obtain ⟨pb, hpb⟩ := hpb
  obtain ⟨f, c⟩ := s
  rcases hra : pa.res with _ | ⟨ta, ra⟩
  · unfold Models at hpa
    rw [hra] at hpa
    have ha : ∀ s' : Bool × ℚ, scanTStep ray m s' a = s' := by
      intro s'
      simp only [scanTStep]
      rw [hpa s'.2 HitRecord.new]
    simp only [ha]
  · unfold Models at hpa
    rw [hra] at hpa
    obtain ⟨hta, hmta, hhita, -⟩ := hpa
    rcases hrb : pb.res with _ | ⟨tb, rb⟩
    · unfold Models at hpb
      rw [hrb] at hpb
      have hb : ∀ s' : Bool × ℚ, scanTStep ray m s' b = s' := by
        intro s'
        simp only [scanTStep]
        rw [hpb s'.2 HitRecord.new]
      simp only [hb]
    · unfold Models at hpb
      rw [hrb] at hpb
      obtain ⟨htb, hmtb, hhitb, -⟩ := hpb
      have stepA : ∀ s' : Bool × ℚ, scanTStep ray m s' a =
          if acc pa.strict ta s'.2 then (true, ta) else s' := by
        intro s'
        simp only [scanTStep]
        rw [hhita s'.2 HitRecord.new]
        by_cases h : acc pa.strict ta s'.2 = true
        · rw [if_pos h, if_pos h]
          show (true, ra.t) = (true, ta)
          rw [hta]
        · rw [if_neg h, if_neg h]
      have stepB : ∀ s' : Bool × ℚ, scanTStep ray m s' b =
          if acc pb.strict tb s'.2 then (true, tb) else s' := by
        intro s'
        simp only [scanTStep]
        rw [hhitb s'.2 HitRecord.new]
        by_cases h : acc pb.strict tb s'.2 = true
        · rw [if_pos h, if_pos h]
          show (true, rb.t) = (true, tb)
          rw [htb]
        · rw [if_neg h, if_neg h]
      simp only [stepA, stepB]
      by_cases hA : acc pa.strict ta c = true
      · by_cases hB : acc pb.strict tb c = true
        · rw [if_pos hA, if_pos hB]
          simp only []
          rcases lt_trichotomy ta tb with hlt | heq | hgt
          · have hb' : ¬ acc pb.strict tb ta = true := by
              rw [acc_false_of pb.strict tb ta (by linarith) (by linarith)]
              exact Bool.noConfusion
            have ha' : acc pa.strict ta tb = true := by
              unfold acc
              simp [hlt]
            rw [if_neg hb', if_pos ha']
          · subst heq
            by_cases h1 : acc pb.strict ta ta = true
            · rw [if_pos h1]
              by_cases h2 : acc pa.strict ta ta = true
              · rw [if_pos h2]
              · rw [if_neg h2]
            · rw [if_neg h1]
              by_cases h2 : acc pa.strict ta ta = true
              · rw [if_pos h2]
              · rw [if_neg h2]
          · have hb' : acc pb.strict tb ta = true := by
              unfold acc
              simp [hgt]
            have ha' : ¬ acc pa.strict ta tb = true := by
              rw [acc_false_of pa.strict ta tb (by linarith) (by linarith)]
              exact Bool.noConfusion
            rw [if_pos hb', if_neg ha']
        · rw [if_pos hA, if_neg hB]
          simp only []
          have hfalse : ¬ acc pb.strict tb ta = true := by
            intro h
            exact hB (acc_mono pb.strict tb ta c h (acc_le pa.strict ta c hA))
          rw [if_neg hfalse, if_pos hA]
      · by_cases hB : acc pb.strict tb c = true
        · rw [if_neg hA, if_pos hB]
          simp only []
          have hfalse : ¬ acc pa.strict ta tb = true := by
            intro h
            exact hA (acc_mono pa.strict ta tb c h (acc_le pb.strict tb c hB))
          rw [if_neg hfalse]
        · rw [if_neg hA, if_neg hB]
          simp only []
          rw [if_neg hA]

theorem scanT_perm (ray : Ray) (m : ℚ) : ∀ {l l' : List Hittable}, l.Perm l' →
    (∀ e ∈ l, ∃ p, Models ray m e p) →
    ∀ s, scanT ray m l s = scanT ray m l' s := by
  intro l l' hperm
  induction hperm with
  | nil => intro _ _; rfl
  | cons x hperm ih =>
      intro hm s
      simp only [scanT, List.foldl]
      have := ih (fun e he => hm e (List.mem_cons_of_mem x he))
        (scanTStep ray m s x)
      simpa [scanT] using this
  | swap x y l₁ =>
      intro hm s
      simp only [scanT, List.foldl]
      congr 1
      exact scanTStep_comm ray m y x
        (hm y (List.mem_cons_self y (x :: l₁)))
        (hm x (List.mem_cons_of_mem y (List.mem_cons_self x l₁))) s
  | trans h1 h2 ih1 ih2 =>
      intro hm s
      rw [ih1 hm s]
      exact ih2 (fun e he => hm e (h1.mem_iff.mpr he)) s

theorem Interval.new_min (a b : ℚ) : (Interval.new a b).min = a := rfl

theorem Interval.new_max (a b : ℚ) : (Interval.new a b).max = b := rfl

theorem Interval.new_toE (a b : ℚ) :
    (Interval.new a b).toE = EInterval.mk (.fin a) (.fin b) := rfl

theorem bvh_scan (ray : Ray) (m : ℚ) (T : BVH) (hc : Conserv T)
    (hm : ∀ e ∈ T.leaves, ∃ p, Models ray m e p)
    (hv : ∀ e ∈ T.leaves, e.aabb.strictValid) :
    ∀ (M : ℚ) (record : HitRecord),
      (T.hit ray (Interval.new m M) record).1 =
        (scanT ray m T.leaves (false, M)).1 ∧
      ((T.hit ray (Interval.new m M) record).1 = true →
        (T.hit ray (Interval.new m M) record).2.t =
          (scanT ray m T.leaves (false, M)).2) ∧
      ((T.hit ray (Interval.new m M) record).1 = false →
        (T.hit ray (Interval.new m M) record).2 = record) := by
  induction T with
  | leaf e bb =>
      intro M record
      obtain ⟨p, hp⟩ := hm e (by simp [BVH.leaves])
      simp only [BVH.hit, BVH.leaves, scanT, List.foldl]
      rcases hres : p.res with _ | ⟨t, hrec⟩
      · unfold Models at hp
        rw [hres] at hp
        have hTstep : scanTStep ray m (false, M) e = (false, M) := by
          simp only [scanTStep]
          rw [hp M HitRecord.new]
        rw [hTstep]
        split
        · exact ⟨rfl, fun h => Bool.noConfusion h, fun _ => rfl⟩
        · rw [hp M record]
          exact ⟨rfl, fun h => Bool.noConfusion h, fun _ => rfl⟩
      · unfold Models at hp
        rw [hres] at hp
        obtain ⟨ht, hmt, hhit, hbx⟩ := hp
        by_cases hacc : acc p.strict t M = true
        · have hTstep : scanTStep ray m (false, M) e = (true, hrec.t) := by
            simp only [scanTStep]
            rw [hhit M HitRecord.new, if_pos hacc]
          rw [hTstep]
          split
          · rename_i hbox
            exfalso
            have h1 := hbx M hacc
            have h2 := aabbHit_mono e.aabb bb ray m M hc
              (hv e (by simp [BVH.leaves])) h1
            rw [Interval.new_toE, h2] at hbox
            exact Bool.noConfusion hbox
          · rw [hhit M record, if_pos hacc]
            exact ⟨rfl, fun _ => rfl, fun h => Bool.noConfusion h⟩
        · have hTstep : scanTStep ray m (false, M) e = (false, M) := by
            simp only [scanTStep]
            rw [hhit M HitRecord.new, if_neg hacc]
          rw [hTstep]
          split
          · exact ⟨rfl, fun h => Bool.noConfusion h, fun _ => rfl⟩
          · rw [hhit M record, if_neg hacc]
            exact ⟨rfl, fun h => Bool.noConfusion h, fun _ => rfl⟩
  | branch l r bb ihl ihr =>
      intro M record
      obtain ⟨hcl, hcr, hsl, hsr⟩ := hc
      have hml : ∀ e ∈ l.leaves, ∃ p, Models ray m e p := fun e he =>
        hm e (by simp [BVH.leaves, he])
      have hmr : ∀ e ∈ r.leaves, ∃ p, Models ray m e p := fun e he =>
        hm e (by simp [BVH.leaves, he])
      have hvl : ∀ e ∈ l.leaves, e.aabb.strictValid := fun e he =>
        hv e (by simp [BVH.leaves, he])
      have hvr : ∀ e ∈ r.leaves, e.aabb.strictValid := fun e he =>
        hv e (by simp [BVH.leaves, he])
      have IHL := ihl hcl hml hvl
      have IHR := ihr hcr hmr hvr
      simp only [BVH.hit, BVH.leaves, Interval.new_min, Interval.new_max]
      split
      · rename_i hbox
        rw [Interval.new_toE] at hbox
        have hboxF : AABB.hit bb ray ⟨.fin m, .fin M⟩ = false := by
          cases hx : AABB.hit bb ray ⟨.fin m, .fin M⟩
          · rfl
          · rw [hx] at hbox
            exact Bool.noConfusion hbox
        have hsub : ∀ e ∈ l.leaves ++ r.leaves, e.aabb.sub bb := by
          intro e he
          exact conserv_leaf_sub (BVH.branch l r bb) ⟨hcl, hcr, hsl, hsr⟩ e
            (by simpa [BVH.leaves] using he)
        have hprune := scanT_pruned ray m bb (l.leaves ++ r.leaves) M hboxF
          (by
            intro e he
            rcases List.mem_append.mp he with h' | h'
            · exact hml e h'
            · exact hmr e h')
          (by
            intro e he
            rcases List.mem_append.mp he with h' | h'
            · exact hvl e h'
            · exact hvr e h')
          hsub
        rw [hprune]
        exact ⟨rfl, fun h => Bool.noConfusion h, fun _ => rfl⟩
      · rcases hL : l.hit ray (Interval.new m M) record with ⟨bl, rec1⟩
        have HL := IHL M record
        rw [hL] at HL
        simp only [scanT, List.foldl_append] at HL ⊢
        cases bl
        · have h1 : rec1 = record := HL.2.2 rfl
          subst h1
          have hsl1 : (List.foldl (scanTStep ray m) (false, M) l.leaves).1 =
              false := HL.1.symm
          have hsl2 := scanT_nohit ray m l.leaves M
          simp only [scanT] at hsl2
          have hslEq : List.foldl (scanTStep ray m) (false, M) l.leaves =
              (false, M) := Prod.ext hsl1 (hsl2 hsl1)
          simp only [if_neg Bool.false_ne_true]
          rcases hR : r.hit ray (Interval.new m M) rec1 with ⟨br, rec2⟩
          have HR := IHR M rec1
          rw [hR] at HR
          simp only [scanT] at HR
          rw [hslEq]
          simp only [Bool.false_or]
          exact ⟨HR.1, HR.2.1, HR.2.2⟩
        · have hsl1 : (List.foldl (scanTStep ray m) (false, M) l.leaves).1 =
              true := HL.1.symm
          have hslt : rec1.t = (List.foldl (scanTStep ray m) (false, M)
              l.leaves).2 := HL.2.1 rfl
          have hslEq : List.foldl (scanTStep ray m) (false, M) l.leaves =
              (true, rec1.t) := (Prod.ext hsl1 hslt.symm)
          simp only [eq_self_iff_true, if_true]
          rcases hR : r.hit ray (Interval.new m rec1.t) rec1 with ⟨br, rec2⟩
          have HR := IHR rec1.t rec1
          rw [hR] at HR
          simp only [scanT] at HR
          rw [hslEq]
          have hflag := scanT_flag ray m r.leaves true rec1.t
          simp only [scanT] at hflag
          rw [hflag]
          refine ⟨by simp, ?_, ?_⟩
          · intro _
            cases br
            · have h2 : rec2 = rec1 := HR.2.2 rfl
              have hr1 : (List.foldl (scanTStep ray m) (false, rec1.t)
                  r.leaves).1 = false := HR.1.symm
              have hr2 := scanT_nohit ray m r.leaves rec1.t
              simp only [scanT] at hr2
              rw [h2, hr2 hr1]
            · simp only []
              exact HR.2.1 rfl
          · intro h
            simp at h

/-- Claim C1 (amended): for a non-empty primitive list whose members obey the
`Models` trait contract (record-independent candidate acceptance, the
reported `t` is the candidate parameter, accepted hits pass the slab test
against their own cached AABB) and have strictly valid boxes, the BVH built
from the list returns the same hit/miss outcome as `EntityList::hit`'s linear
closest-so-far scan over the same list, and on a hit the same hit parameter
`t`.  (The full record contents can differ when two primitives hit at exactly
the same `t`; see the counterexample.) -/
theorem c1_bvh_matches_linear_scan
    (el : EntityList) (ray : Ray) (tI : Interval) (record : HitRecord) (b : BVH)
    (hm : ∀ e ∈ el.list, ∃ p, Models ray tI.min e p)
    (hv : ∀ e ∈ el.list, e.aabb.strictValid)
    (hb : computeBvh el.list = .built b) :
    (BVH.hit b ray tI record).1 = (el.hit ray tI record).1 ∧
    ((el.hit ray tI record).1 = true →
      (BVH.hit b ray tI record).2.t = (el.hit ray tI record).2.t) := by
  obtain ⟨m, M⟩ := tI
  show (BVH.hit b ray (Interval.new m M) record).1 =
      (el.hit ray (Interval.new m M) record).1 ∧
    ((el.hit ray (Interval.new m M) record).1 = true →
      (BVH.hit b ray (Interval.new m M) record).2.t =
        (el.hit ray (Interval.new m M) record).2.t)
  have hperm : b.leaves.Perm el.list :=
    computeBvhF_leaves_perm el.list.length el.list b (le_refl _) hb
  have hcons : Conserv b :=
    computeBvhF_conserv el.list.length el.list b (le_refl _) hb
  have hmL : ∀ e ∈ b.leaves, ∃ p, Models ray m e p := fun e he =>
    hm e (hperm.mem_iff.mp he)
  have hvL : ∀ e ∈ b.leaves, e.aabb.strictValid := fun e he =>
    hv e (hperm.mem_iff.mp he)
  have htree := bvh_scan ray m b hcons hmL hvL M record
  have hlist := entityList_scan el ray (Interval.new m M) record hm
  simp only [Interval.new_min, Interval.new_max] at hlist
  have hperm2 := scanT_perm ray m hperm hmL (false, M)
  constructor
  · exact (htree.1.trans (congrArg Prod.fst hperm2)).trans hlist.1.symm
  · intro h
    have hA1 : (BVH.hit b ray (Interval.new m M) record).1 = true :=
      ((htree.1.trans (congrArg Prod.fst hperm2)).trans hlist.1.symm).trans h
    have h1 := htree.2.1 hA1
    have h2 := hlist.2 h
    rw [h1, h2]
    exact congrArg Prod.snd hperm2

theorem quadA_hit_eval (M : ℚ) (record : HitRecord) :
    Quad.hit quadA tieRay (Interval.new (1/1000) M) record =
      if acc false 1 M then (true, recA) else (false, record) := by
  have hden : ¬ (|dot quadA.normal tieRay.direction| < 1/1000000) := by
    with_unfolding_all decide
  have hcon : (Interval.new (1/1000) M).contains
      ((quadA.d - dot quadA.normal tieRay.origin) /
        dot quadA.normal tieRay.direction) = acc false 1 M := by
    have ht : (quadA.d - dot quadA.normal tieRay.origin) /
        dot quadA.normal tieRay.direction = 1 := by with_unfolding_all decide
    rw [ht, Bool.eq_iff_iff]
    unfold Interval.contains acc
    simp only [Interval.new_min, Interval.new_max, Bool.and_eq_true,
      Bool.or_eq_true, Bool.not_false, Bool.true_and, decide_eq_true_eq]
    constructor
    · rintro ⟨-, h2⟩
      exact le_iff_lt_or_eq.mp h2
    · intro h
      exact ⟨by norm_num, le_iff_lt_or_eq.mpr h⟩
  simp only [Quad.hit]
  rw [if_neg hden, hcon]
  by_cases hacc : acc false 1 M = true
  · rw [if_neg (show ¬ (!(acc false 1 M)) = true by simp [hacc]),
      if_pos hacc]
    with_unfolding_all rfl
  · have hacc' : acc false 1 M = false := by
      revert hacc
      cases acc false 1 M
      · intro _
        rfl
      · intro h
        exact absurd rfl h
    rw [if_pos (show (!(acc false 1 M)) = true by simp [hacc']),
      if_neg hacc]

theorem quadB_hit_eval (M : ℚ) (record : HitRecord) :
    Quad.hit quadB tieRay (Interval.new (1/1000) M) record =
      if acc false 1 M then (true, recB) else (false, record) := by
  have hden : ¬ (|dot quadB.normal tieRay.direction| < 1/1000000) := by
    with_unfolding_all decide
  have hcon : (Interval.new (1/1000) M).contains
      ((quadB.d - dot quadB.normal tieRay.origin) /
        dot quadB.normal tieRay.direction) = acc false 1 M := by
    have ht : (quadB.d - dot quadB.normal tieRay.origin) /
        dot quadB.normal tieRay.direction = 1 := by with_unfolding_all decide
    rw [ht, Bool.eq_iff_iff]
    unfold Interval.contains acc
    simp only [Interval.new_min, Interval.new_max, Bool.and_eq_true,
      Bool.or_eq_true, Bool.not_false, Bool.true_and, decide_eq_true_eq]
    constructor
    · rintro ⟨-, h2⟩
      exact le_iff_lt_or_eq.mp h2
    · intro h
      exact ⟨by norm_num, le_iff_lt_or_eq.mpr h⟩
  simp only [Quad.hit]
  rw [if_neg hden, hcon]
  by_cases hacc : acc false 1 M = true
  · rw [if_neg (show ¬ (!(acc false 1 M)) = true by simp [hacc]),
      if_pos hacc]
    with_unfolding_all rfl
  · have hacc' : acc false 1 M = false := by
      revert hacc
      cases acc false 1 M
      · intro _
        rfl
      · intro h
        exact absurd rfl h
    rw [if_pos (show (!(acc false 1 M)) = true by simp [hacc']),
      if_neg hacc]

theorem quadA_box (M : ℚ) (hM : acc false 1 M = true) :
    AABB.hit quadA.aabb tieRay ⟨.fin (1/1000), .fin M⟩ = true := by
  have hM1 : (1:ℚ) ≤ M := acc_le false 1 M hM
  have hmM : (1:ℚ)/1000 < M := by linarith [hM1]
  rw [aabbHit_eq_fold]
  rw [show axesOf quadA.aabb tieRay =
      [⟨0, 1, 1/2, 0⟩, ⟨0, 1, 1/2, 0⟩, ⟨-(1/20000), 1/20000, 1, -1⟩]
    from by with_unfolding_all rfl]
  refine (axisFold_iff _ _ _ hmM).mpr ⟨?_, ?_⟩
  · intro a ha
    simp only [List.mem_cons, List.not_mem_nil, or_false] at ha
    rcases ha with rfl | rfl | rfl
    · exact Or.inr (Or.inl ⟨by norm_num, by norm_num⟩)
    · exact Or.inr (Or.inl ⟨by norm_num, by norm_num⟩)
    · exact Or.inl (by norm_num)
  · have hax : axEff 0 1 (1/2) 0 ((1:ℚ)/1000, M) = ((1:ℚ)/1000, M) := by
      simp [axEff]
    have hlo : loSlab (-(1/20000)) (1/20000) 1 (-1) = 19999/20000 := by
      unfold loSlab
      rw [min_def]
      norm_num
    have hhi : hiSlab (-(1/20000)) (1/20000) 1 (-1) = 20001/20000 := by
      unfold hiSlab
      rw [max_def]
      norm_num
    have haz : axEff (-(1/20000)) (1/20000) 1 (-1) ((1:ℚ)/1000, M) =
        (Max.max ((1:ℚ)/1000) (19999/20000), Min.min M (20001/20000)) := by
      unfold axEff
      rw [if_neg (by norm_num), hlo, hhi]
    simp only [effFold]
    rw [hax, hax, haz]
    show Max.max ((1:ℚ)/1000) (19999/20000) < Min.min M (20001/20000)
    rw [max_eq_right (by norm_num : (1:ℚ)/1000 ≤ 19999/20000)]
    exact lt_min (by linarith) (by norm_num)

theorem quadB_box (M : ℚ) (hM : acc false 1 M = true) :
    AABB.hit quadB.aabb tieRay ⟨.fin (1/1000), .fin M⟩ = true := by
  have hM1 : (1:ℚ) ≤ M := acc_le false 1 M hM
  have hmM : (1:ℚ)/1000 < M := by linarith [hM1]
  rw [aabbHit_eq_fold]
  rw [show axesOf quadB.aabb tieRay =
      [⟨-1, 1, 1/2, 0⟩, ⟨0, 1, 1/2, 0⟩, ⟨-(1/20000), 1/20000, 1, -1⟩]
    from by with_unfolding_all rfl]
  refine (axisFold_iff _ _ _ hmM).mpr ⟨?_, ?_⟩
  · intro a ha
    simp only [List.mem_cons, List.not_mem_nil, or_false] at ha
    rcases ha with rfl | rfl | rfl
    · exact Or.inr (Or.inl ⟨by norm_num, by norm_num⟩)
    · exact Or.inr (Or.inl ⟨by norm_num, by norm_num⟩)
    · exact Or.inl (by norm_num)
  · have hax1 : axEff (-1) 1 (1/2) 0 ((1:ℚ)/1000, M) = ((1:ℚ)/1000, M) := by
      simp [axEff]
    have hax2 : axEff 0 1 (1/2) 0 ((1:ℚ)/1000, M) = ((1:ℚ)/1000, M) := by
      simp [axEff]
    have hlo : loSlab (-(1/20000)) (1/20000) 1 (-1) = 19999/20000 := by
      unfold loSlab
      rw [min_def]
      norm_num
    have hhi : hiSlab (-(1/20000)) (1/20000) 1 (-1) = 20001/20000 := by
      unfold hiSlab
      rw [max_def]
      norm_num
    have haz : axEff (-(1/20000)) (1/20000) 1 (-1) ((1:ℚ)/1000, M) =
        (Max.max ((1:ℚ)/1000) (19999/20000), Min.min M (20001/20000)) := by
      unfold axEff
      rw [if_neg (by norm_num), hlo, hhi]
    simp only [effFold]
    rw [hax1, hax2, haz]
    show Max.max ((1:ℚ)/1000) (19999/20000) < Min.min M (20001/20000)
    rw [max_eq_right (by norm_num : (1:ℚ)/1000 ≤ 19999/20000)]
    exact lt_min (by linarith) (by norm_num)

theorem models_hitableA : Models tieRay (1/1000) hitableA profA := by
  simp only [Models, profA]
  refine ⟨by with_unfolding_all decide, by with_unfolding_all decide, ?_, ?_⟩
  · intro M record
    exact quadA_hit_eval M record
  · intro M hM
    exact quadA_box M hM

theorem models_hitableB : Models tieRay (1/1000) hitableB profB := by
  simp only [Models, profB]
  refine ⟨by with_unfolding_all decide, by with_unfolding_all decide, ?_, ?_⟩
  · intro M record
    exact quadB_hit_eval M record
  · intro M hM
    exact quadB_box M hM

/-- Counterexample to the literal C1: in the tied two-quad scene (both quads
hit the ray at exactly t = 1) the BVH and the linear scan agree on the
hit/miss outcome and on the hit parameter `t`, but return different
hit-record contents (the quad UV and material differ: the scan keeps the
last-inserted quad, the BVH traversal the last-visited leaf of its sorted
order). -/
theorem c1_counterexample :
    (BVH.hit tieBvh tieRay tieInterval HitRecord.new).1 = true ∧
    (EntityList.hit tieEL tieRay tieInterval HitRecord.new).1 = true ∧
    (BVH.hit tieBvh tieRay tieInterval HitRecord.new).2.t =
      (EntityList.hit tieEL tieRay tieInterval HitRecord.new).2.t ∧
    (BVH.hit tieBvh tieRay tieInterval HitRecord.new).2 ≠
      (EntityList.hit tieEL tieRay tieInterval HitRecord.new).2 := by
  with_unfolding_all decide

/-- Witness for the amended C1 at the concrete tie scene: the hypotheses of
`c1_bvh_matches_linear_scan` hold (both quads model their profiles, both
boxes are strictly valid, the build succeeds) and its conclusion follows at
this input. -/
theorem c1_bvh_matches_linear_scan_witness :
    (∀ e ∈ tieEL.list, ∃ p, Models tieRay tieInterval.min e p) ∧
    (∀ e ∈ tieEL.list, e.aabb.strictValid) ∧
    computeBvh tieEL.list = .built tieBvh ∧
    (BVH.hit tieBvh tieRay tieInterval HitRecord.new).1 =
      (EntityList.hit tieEL tieRay tieInterval HitRecord.new).1 ∧
    ((EntityList.hit tieEL tieRay tieInterval HitRecord.new).1 = true →
      (BVH.hit tieBvh tieRay tieInterval HitRecord.new).2.t =
        (EntityList.hit tieEL tieRay tieInterval HitRecord.new).2.t) := by
  have hm : ∀ e ∈ tieEL.list, ∃ p, Models tieRay tieInterval.min e p := by
    intro e he
    have hlist : tieEL.list = [hitableA, hitableB] := rfl
    rw [hlist] at he
    simp only [List.mem_cons, List.not_mem_nil, or_false] at he
    rcases he with rfl | rfl
    · exact ⟨profA, models_hitableA⟩
    · exact ⟨profB, models_hitableB⟩
  have hv : ∀ e ∈ tieEL.list, e.aabb.strictValid := by
    intro e he
    have hlist : tieEL.list = [hitableA, hitableB] := rfl
    rw [hlist] at he
    simp only [List.mem_cons, List.not_mem_nil, or_false] at he
    rcases he with rfl | rfl
    · exact ⟨by with_unfolding_all decide, by with_unfolding_all decide,
        by with_unfolding_all decide⟩
    · exact ⟨by with_unfolding_all decide, by with_unfolding_all decide,
        by with_unfolding_all decide⟩
  have hb : computeBvh tieEL.list = .built tieBvh := by with_unfolding_all rfl
  have hmain := c1_bvh_matches_linear_scan tieEL tieRay tieInterval
    HitRecord.new tieBvh hm hv hb
  exact ⟨hm, hv, hb, hmain.1, hmain.2⟩

end RT
